import Mathlib

/-!
Verification of the TMX alignment-editor engine: a shallow embedding of
`models.py` (the alignment document), `undo.py` (the mutation commands),
and `tmx_io.py` (the TMX codec), together with proofs of the spec's
testable properties.

XML documents are modelled as immutable element trees mirroring the lxml
API surface the code uses (`tag`, `attrib`, `.text`, children each
carrying their `.tail`); `text`/`tail` of `None` and `""` are identified
as `""` since the code never distinguishes them.  `copy.deepcopy` is the
identity on immutable trees.  File I/O is modelled separately as an
explicit store of path/content pairs.
-/
/-- Element of an XML tree: tag, attribute list, text before the first
child, and children each paired with its tail text (lxml's model). -/
inductive XElem : Type where
  | mk : String → List (String × String) → String → List (XElem × String) → XElem

/-- Tag of an element. -/
def XElem.tag : XElem → String
  | .mk t _ _ _ => t

/-- Attribute list of an element (keys unique in well-formed XML). -/
def XElem.attribs : XElem → List (String × String)
  | .mk _ a _ _ => a

/-- Text content before the first child (lxml `.text`, `None` as `""`). -/
def XElem.textc : XElem → String
  | .mk _ _ s _ => s

/-- Children, each paired with its tail text (lxml `.tail`, `None` as `""`). -/
def XElem.children : XElem → List (XElem × String)
  | .mk _ _ _ c => c

/-- Attribute lookup, lxml `elem.get(key)`: `none` when absent. -/
def XElem.getAttr (e : XElem) (k : String) : Option String :=
  e.attribs.lookup k

/-- Set an attribute value in an attribute list: replace the first binding
of the key if present, else append (lxml `elem.set` semantics). -/
def setAttrList (l : List (String × String)) (k v : String) : List (String × String) :=
  match l with
  | [] => [(k, v)]
  | (k', v') :: rest => if k' = k then (k, v) :: rest else (k', v') :: setAttrList rest k v

/-- lxml `elem.set(k, v)`. -/
def XElem.setAttr (e : XElem) (k v : String) : XElem :=
  .mk e.tag (setAttrList e.attribs k v) e.textc e.children

/-- lxml `elem.find(tag)`: first direct child with exactly this tag. -/
def XElem.find (e : XElem) (t : String) : Option XElem :=
  (e.children.map Prod.fst).find? (fun c => c.tag = t)

/-- lxml `elem.findall(tag)`: all direct children with exactly this tag. -/
def XElem.findallTag (e : XElem) (t : String) : List XElem :=
  (e.children.map Prod.fst).filter (fun c => c.tag = t)

mutual

/-- lxml `root.iter(tag)`: all elements of the subtree with this tag, in
document (pre)order, the element itself included. -/
def XElem.iterTag (t : String) : XElem → List XElem
  | .mk tag a s ch => (if tag = t then [XElem.mk tag a s ch] else []) ++ iterTagL t ch

/-- Helper for `XElem.iterTag` over a child list. -/
def iterTagL (t : String) : List (XElem × String) → List XElem
  | [] => []
  | (c, _) :: rest => XElem.iterTag t c ++ iterTagL t rest
end

mutual

/-- lxml `"".join(elem.itertext())`: all character data of the subtree in
document order (text of each element, then recursively each child
followed by its tail). -/
def XElem.itertext : XElem → String
  | .mk _ _ s ch => s ++ itertextL ch

/-- Helper for `XElem.itertext` over a child list. -/
def itertextL : List (XElem × String) → String
  | [] => ""
  | (c, tl) :: rest => XElem.itertext c ++ tl ++ itertextL rest
end

/-- Key of the namespaced language attribute, the literal string
`xml:lang` expanded as lxml does. -/
def xmlLangKey : String := "\x7bhttp://www.w3.org/XML/1998/namespace\x7dlang"

/-- The attribute read `tuv.get("{xmlns}lang") or tuv.get("lang", "")`
from `tmx_io.py`: the namespaced value when present and truthy (non-empty),
else the plain `lang` attribute, else `""`. -/
def tuvRawLang (tuv : XElem) : String :=
  match tuv.getAttr xmlLangKey with
  | some s => if s = "" then (tuv.getAttr "lang").getD "" else s
  | none => (tuv.getAttr "lang").getD ""

/-- Python `str.strip()` on a character list: drop whitespace from both ends. -/
def stripChars (l : List Char) : List Char :=
  ((l.dropWhile Char.isWhitespace).reverse.dropWhile Char.isWhitespace).reverse

/-- Embeds `_normalize_lang` from `tmx_io.py`: `lang.strip().lower()`. -/
def _normalize_lang (s : String) : String :=
  String.mk ((stripChars s.data).map Char.toLower)

/-- Embeds `_seg_text` from `tmx_io.py`: full text content of the `seg`
child, `""` when there is no `seg` child. -/
def _seg_text (tuv : XElem) : String :=
  match tuv.find "seg" with
  | none => ""
  | some seg => seg.itertext

/-- One step of `collections.Counter` tallying: increment the count of a
key (first occurrence in the association list), appending a fresh entry
when the key is new.  Entry order is first-occurrence order, as for the
keys of a Python dict. -/
def bump (c : List (String × Nat)) (k : String) : List (String × Nat) :=
  match c with
  | [] => [(k, 1)]
  | (k', n) :: rest => if k' = k then (k, n + 1) :: rest else (k', n) :: bump rest k

/-- `collections.Counter(it)`: tally of a list, entries in first-occurrence order. -/
def counterOf (l : List String) : List (String × Nat) :=
  l.foldl bump []

/-- Insert one entry into a list sorted by count descending, after all
entries of greater or equal count (this is where Python's stable
`sorted(..., reverse=True)` puts it). -/
def insertByCountDesc (x : String × Nat) : List (String × Nat) → List (String × Nat)
  | [] => [x]
  | y :: ys => if x.2 > y.2 then x :: y :: ys else y :: insertByCountDesc x ys

/-- `Counter.most_common()`: the tally entries sorted by count descending,
ties kept in first-occurrence order (Python's sort is stable). -/
def mostCommon (c : List (String × Nat)) : List (String × Nat) :=
  c.foldl (fun acc x => insertByCountDesc x acc) []

/-- The `for lang, _ in lang_counter.most_common(): if lang != src_lang`
loop of `_detect_languages`: first key different from `s`, if any. -/
def firstKeyNe (s : String) : List (String × Nat) → Option String
  | [] => none
  | (k, _) :: rest => if k = s then firstKeyNe s rest else some k

/-- The list of language codes `_detect_languages` tallies: for every
`tuv` element anywhere under the root, in document order, the raw
language attribute when truthy, normalized. -/
def observedLangs (root : XElem) : List String :=
  (XElem.iterTag "tuv" root).filterMap
    (fun tuv => let lang := tuvRawLang tuv
      if lang = "" then none else some (_normalize_lang lang))

/-- Language-pair choice of `_detect_languages` after the tally is built,
given the tally and the header's `srclang` attribute (`none` when the
header element is absent).  Follows `tmx_io.py` lines 66-95 exactly. -/
def detectFrom (lang_counter : List (String × Nat)) (hdrSrclang : Option String) :
    String × String :=
  if lang_counter.length < 2 then
    match lang_counter with
    | [] => ("en", "th")
    | (l, _) :: _ => (l, "unknown")
  else
    let src0 : String :=
      match hdrSrclang with
      | some raw =>
        let s := _normalize_lang raw
        if s = "*all*" then "" else s
      | none => ""
    let src_lang :=
      if src0 = "" then ((mostCommon lang_counter).headD ("", 0)).1 else src0
    let tgt0 := (firstKeyNe src_lang (mostCommon lang_counter)).getD ""
    let tgt_lang := if tgt0 = "" then "unknown" else tgt0
    (src_lang, tgt_lang)

/-- Embeds `_detect_languages` from `tmx_io.py`: source/target language
pair detected from the header and the tally of all `tuv` languages. -/
def _detect_languages (root : XElem) : String × String :=
  detectFrom (counterOf (observedLangs root))
    ((root.find "header").map (fun h => (h.getAttr "srclang").getD ""))

/-- Embeds `AlignmentRow` from `models.py`: one aligned source/target
pair plus the preserved original `<tu>` element, extra-language `tuv`
elements, and per-column modified flags. -/
structure AlignmentRow where
  source : String := ""
  target : String := ""
  tu_element : Option XElem := none
  extra_tuvs : List XElem := []
  source_modified : Bool := false
  target_modified : Bool := false

/-- Embeds `AlignmentDocument` from `models.py`. -/
structure AlignmentDocument where
  rows : List AlignmentRow := []
  source_lang : String := "en"
  target_lang : String := "th"
  header_attribs : List (String × String) := []
  header_element : Option XElem := none
  file_path : Option String := none

/-- Embeds `AlignmentDocument.row_count`. -/
def AlignmentDocument.row_count (doc : AlignmentDocument) : Nat :=
  doc.rows.length

/-- Python list subscription `l[i]` with an `int` index: negative indices
count from the end; out-of-range access is an `IndexError`, modelled as
`none`. -/
def pyListGet {α : Type} (l : List α) (i : Int) : Option α :=
  let j : Int := if i < 0 then i + l.length else i
  if 0 ≤ j ∧ j < l.length then l[j.toNat]? else none

/-- Embeds `AlignmentDocument.get_cell`: `r = self.rows[row]` (Python
indexing, `none` = `IndexError`), then `r.source if col == 0 else
r.target`. -/
def AlignmentDocument.get_cell (doc : AlignmentDocument) (row col : Int) : Option String :=
  (pyListGet doc.rows row).map (fun r => if col = 0 then r.source else r.target)

/-- The cell of a row addressed by column number: `source` for 0,
`target` for anything else, exactly as `get_cell`/`set_cell` branch. -/
def AlignmentRow.getCol (r : AlignmentRow) (col : Nat) : String :=
  if col = 0 then r.source else r.target

/-- Total counterpart of `get_cell` used to state facts about the
commands, which only ever index in range: out-of-range reads give `""`. -/
def AlignmentDocument.getCellD (doc : AlignmentDocument) (row col : Nat) : String :=
  match doc.rows[row]? with
  | some r => r.getCol col
  | none => ""

/-- The row update performed by `set_cell`: overwrite the addressed
column and set that column's modified flag unconditionally. -/
def AlignmentRow.setCol (r : AlignmentRow) (col : Nat) (text : String) : AlignmentRow :=
  if col = 0 then { r with source := text, source_modified := true }
  else { r with target := text, target_modified := true }

/-- Embeds `AlignmentDocument.set_cell` at the in-range indices the
commands use (Python raises `IndexError` out of range; here that case is
a no-op and every theorem carries the in-range hypothesis). -/
def AlignmentDocument.set_cell (doc : AlignmentDocument) (row col : Nat) (text : String) :
    AlignmentDocument :=
  match doc.rows[row]? with
  | some r => { doc with rows := doc.rows.set row (r.setCol col text) }
  | none => doc

/-- Embeds `AlignmentDocument.insert_row`: `self.rows.insert(index, row)`. -/
def AlignmentDocument.insert_row (doc : AlignmentDocument) (index : Nat) (row : AlignmentRow) :
    AlignmentDocument :=
  { doc with rows := doc.rows.insertIdx index row }

/-- Embeds `AlignmentDocument.remove_row`: `self.rows.pop(index)`; the
popped row itself is read off separately via `rows[index]?` where a
command stores it. -/
def AlignmentDocument.remove_row (doc : AlignmentDocument) (index : Nat) : AlignmentDocument :=
  { doc with rows := doc.rows.eraseIdx index }

/-- Python `right.startswith(" ")`: whether the first character is a
space (character-level model of the single-space test in
`SplitCommand.redo`). -/
def startsWithSpace (s : String) : Bool :=
  match s.data with
  | c :: _ => c = ' '
  | [] => false

/-- Embeds `SplitCommand` from `undo.py`: the constructor-captured fields
plus the mutable branch bookkeeping (`_filled_existing`, `_new_row`). -/
structure SplitCommand where
  row : Nat
  col : Nat
  pos : Nat
  original_text : String
  filled_existing : Bool := false
  new_row : Option AlignmentRow := none

/-- Embeds `SplitCommand.__init__`: captures the original cell text. -/
def mkSplitCommand (doc : AlignmentDocument) (row col pos : Nat) : SplitCommand :=
  { row := row, col := col, pos := pos, original_text := doc.getCellD row col }

/-- Embeds `SplitCommand.redo`.  Returns the updated command state (the
branch taken) together with the mutated document. -/
def SplitCommand.redo (c : SplitCommand) (doc : AlignmentDocument) :
    SplitCommand × AlignmentDocument :=
  let left := c.original_text.take c.pos
  let right0 := c.original_text.drop c.pos
  let right := if startsWithSpace right0 then right0.drop 1 else right0
  let doc1 := doc.set_cell c.row c.col left
  let next_row := c.row + 1
  if next_row < doc1.row_count ∧ doc1.getCellD next_row c.col = "" then
    ({ c with filled_existing := true }, doc1.set_cell next_row c.col right)
  else
    let new_row : AlignmentRow :=
      if c.col = 0 then { source := right, target := "" }
      else { source := "", target := right }
    ({ c with filled_existing := false, new_row := some new_row },
      doc1.insert_row (c.row + 1) new_row)

/-- Embeds `SplitCommand.undo`. -/
def SplitCommand.undo (c : SplitCommand) (doc : AlignmentDocument) : AlignmentDocument :=
  let doc1 :=
    if c.filled_existing then doc.set_cell (c.row + 1) c.col ""
    else doc.remove_row (c.row + 1)
  doc1.set_cell c.row c.col c.original_text

/-- Embeds `MergeCommand` from `undo.py`. -/
structure MergeCommand where
  row : Nat
  col : Nat
  other_col : Nat
  orig_active : String
  orig_next_active : String
  orig_next_other : String
  row_removed : Bool := false
  removed_row : Option AlignmentRow := none

/-- Embeds `MergeCommand.__init__`: snapshots the three cells involved. -/
def mkMergeCommand (doc : AlignmentDocument) (row col : Nat) : MergeCommand :=
  { row := row, col := col, other_col := 1 - col,
    orig_active := doc.getCellD row col,
    orig_next_active := doc.getCellD (row + 1) col,
    orig_next_other := doc.getCellD (row + 1) (1 - col) }

/-- Embeds `MergeCommand.redo`. -/
def MergeCommand.redo (c : MergeCommand) (doc : AlignmentDocument) :
    MergeCommand × AlignmentDocument :=
  let next_row_idx := c.row + 1
  let a := c.orig_active
  let b := c.orig_next_active
  let merged := if a ≠ "" ∧ b ≠ "" then a ++ " " ++ b else a ++ b
  let doc1 := doc.set_cell c.row c.col merged
  if c.orig_next_other ≠ "" then
    ({ c with row_removed := false }, doc1.set_cell next_row_idx c.col "")
  else
    ({ c with row_removed := true, removed_row := doc1.rows[next_row_idx]? },
      doc1.remove_row next_row_idx)

/-- Embeds `MergeCommand.undo` (`assert` on the saved row modelled as a
no-op in the impossible `none` case). -/
def MergeCommand.undo (c : MergeCommand) (doc : AlignmentDocument) : AlignmentDocument :=
  let doc1 :=
    if c.row_removed then
      match c.removed_row with
      | some r => doc.insert_row (c.row + 1) r
      | none => doc
    else doc.set_cell (c.row + 1) c.col c.orig_next_active
  doc1.set_cell c.row c.col c.orig_active

/-- Embeds `MoveCellCommand` from `undo.py` (stateless besides its
construction arguments; `direction` is `-1` or `+1`). -/
structure MoveCellCommand where
  row : Nat
  col : Nat
  direction : Int

/-- Embeds `MoveCellCommand.redo`: swap the active column's content
between `row` and `row + direction` (callers keep the target in range,
so the target index is taken as a natural number). -/
def MoveCellCommand.redo (c : MoveCellCommand) (doc : AlignmentDocument) : AlignmentDocument :=
  let tgt := ((c.row : Int) + c.direction).toNat
  let a := doc.getCellD c.row c.col
  let b := doc.getCellD tgt c.col
  (doc.set_cell c.row c.col b).set_cell tgt c.col a

/-- Embeds `MoveCellCommand.undo`, whose body is identical to `redo`. -/
def MoveCellCommand.undo (c : MoveCellCommand) (doc : AlignmentDocument) : AlignmentDocument :=
  let tgt := ((c.row : Int) + c.direction).toNat
  let a := doc.getCellD c.row c.col
  let b := doc.getCellD tgt c.col
  (doc.set_cell c.row c.col b).set_cell tgt c.col a

/-- Embeds `EditCellCommand` from `undo.py`. -/
structure EditCellCommand where
  row : Nat
  col : Nat
  old : String
  new : String

/-- Embeds `EditCellCommand.redo`. -/
def EditCellCommand.redo (c : EditCellCommand) (doc : AlignmentDocument) : AlignmentDocument :=
  doc.set_cell c.row c.col c.new

/-- Embeds `EditCellCommand.undo`. -/
def EditCellCommand.undo (c : EditCellCommand) (doc : AlignmentDocument) : AlignmentDocument :=
  doc.set_cell c.row c.col c.old

/-- Embeds `DeleteEmptyRowCommand` from `undo.py`. -/
structure DeleteEmptyRowCommand where
  row : Nat
  removed_row : Option AlignmentRow := none

/-- Embeds `DeleteEmptyRowCommand.redo`: saves then removes the row. -/
def DeleteEmptyRowCommand.redo (c : DeleteEmptyRowCommand) (doc : AlignmentDocument) :
    DeleteEmptyRowCommand × AlignmentDocument :=
  ({ c with removed_row := doc.rows[c.row]? }, doc.remove_row c.row)

/-- Embeds `DeleteEmptyRowCommand.undo` (`assert` modelled as a no-op in
the impossible `none` case). -/
def DeleteEmptyRowCommand.undo (c : DeleteEmptyRowCommand) (doc : AlignmentDocument) :
    AlignmentDocument :=
  match c.removed_row with
  | some r => doc.insert_row c.row r
  | none => doc

/-- The namespace-stripping in `parse_tmx`: `etree.QName(tag).localname`,
the part of the tag after the first closing brace. -/
def localnameOf (tag : String) : String :=
  String.mk ((tag.data.dropWhile (fun c => c ≠ '}')).drop 1)

/-- One iteration of the per-`tuv` loop of `parse_tmx` (lines 140-151):
assign segment text to source on a normalized source-language match,
else to target on a target-language match, else append the `tuv` to the
extras; each later match overwrites. -/
def rowStep (source_lang target_lang : String) (acc : String × String × List XElem)
    (tuv : XElem) : String × String × List XElem :=
  let lang := tuvRawLang tuv
  let normalized := _normalize_lang lang
  let text := _seg_text tuv
  if normalized = source_lang then (text, acc.2.1, acc.2.2)
  else if normalized = target_lang then (acc.1, text, acc.2.2)
  else (acc.1, acc.2.1, acc.2.2 ++ [tuv])

/-- The per-`tu` loop of `parse_tmx`: fold `rowStep` over the direct
`tuv` children and build the row (the original `tu` is kept as a deep
copy, here the element value itself). -/
def rowOfTu (source_lang target_lang : String) (tu : XElem) : AlignmentRow :=
  let r := (tu.findallTag "tuv").foldl (rowStep source_lang target_lang) ("", "", [])
  { source := r.1, target := r.2.1, tu_element := some tu, extra_tuvs := r.2.2 }

/-- Embeds `parse_tmx` from `tmx_io.py` at the element-tree level (the
XML byte parsing itself is lxml's; a malformed-XML failure happens before
this point).  `Except.error` stands for the `ValueError` raises.  The
`file_path` recorded by the source is outside the tree model and kept
`none`. -/
def parse_tmx (root : XElem) : Except String AlignmentDocument :=
  let tag := if root.tag.data.contains '}' then localnameOf root.tag else root.tag
  if tag.toLower ≠ "tmx" then Except.error "root element is not tmx"
  else
    let langs := _detect_languages root
    let header := root.find "header"
    let header_attribs := match header with | some h => h.attribs | none => []
    match root.find "body" with
    | none => Except.error "TMX file has no body element"
    | some body =>
      Except.ok
        { rows := (body.findallTag "tu").map (rowOfTu langs.1 langs.2),
          source_lang := langs.1, target_lang := langs.2,
          header_attribs := header_attribs,
          header_element := header,
          file_path := none }

/-- Helper of `_update_seg_text`: mutate the first `seg` child in place —
clear its children, set its text, set its tail to `None`. -/
def replaceFirstSeg : List (XElem × String) → String → List (XElem × String)
  | [], _ => []
  | (c, tl) :: rest, t =>
    if c.tag = "seg" then (XElem.mk c.tag c.attribs t [], "") :: rest
    else (c, tl) :: replaceFirstSeg rest t

/-- Embeds `_update_seg_text` from `tmx_io.py`: replace the `seg`
element's content with plain text; when no `seg` child exists,
`SubElement` appends a fresh one. -/
def _update_seg_text (tuv : XElem) (new_text : String) : XElem :=
  match tuv.find "seg" with
  | some _ => XElem.mk tuv.tag tuv.attribs tuv.textc (replaceFirstSeg tuv.children new_text)
  | none =>
    XElem.mk tuv.tag tuv.attribs tuv.textc
      (tuv.children ++ [(XElem.mk "seg" [] new_text [], "")])

/-- Embeds `_find_tuv` from `tmx_io.py`: the first direct `tuv` child
whose language matches case-insensitively. -/
def _find_tuv (tu : XElem) (lang : String) : Option XElem :=
  (tu.findallTag "tuv").find?
    (fun tuv => _normalize_lang (tuvRawLang tuv) = _normalize_lang lang)

/-- In-place update of the first language-matching `tuv` child that
`_build_tu_from_row` performs through the element reference returned by
`_find_tuv`. -/
def replaceFirstMatchingTuv (ch : List (XElem × String)) (lang text : String) :
    List (XElem × String) :=
  match ch with
  | [] => []
  | (c, tl) :: rest =>
    if c.tag = "tuv" ∧ _normalize_lang (tuvRawLang c) = _normalize_lang lang then
      (_update_seg_text c text, tl) :: rest
    else (c, tl) :: replaceFirstMatchingTuv rest lang text

/-- The modified-column branch of `_build_tu_from_row`: update the
matching `tuv`'s segment in place, or append a missing `tuv` (built by
`SubElement`, `set` of the language, then `_update_seg_text`). -/
def updateOrCreateTuv (tu : XElem) (lang text : String) : XElem :=
  match _find_tuv tu lang with
  | some _ => XElem.mk tu.tag tu.attribs tu.textc (replaceFirstMatchingTuv tu.children lang text)
  | none =>
    let tuv1 := _update_seg_text (XElem.mk "tuv" [(xmlLangKey, lang)] "" []) text
    XElem.mk tu.tag tu.attribs tu.textc (tu.children ++ [(tuv1, "")])

/-- Embeds `_build_tu_from_row` from `tmx_io.py`: clone of the original
`tu` with only modified columns' segments rewritten, or a minimal new
`tu` for rows with no original element. -/
def _build_tu_from_row (row : AlignmentRow) (source_lang target_lang : String) : XElem :=
  match row.tu_element with
  | some tu0 =>
    let tu1 := if row.source_modified then updateOrCreateTuv tu0 source_lang row.source else tu0
    if row.target_modified then updateOrCreateTuv tu1 target_lang row.target else tu1
  | none =>
    let tuv_src : XElem :=
      XElem.mk "tuv" [(xmlLangKey, source_lang)] "" [(XElem.mk "seg" [] row.source [], "")]
    let tuv_tgt : XElem :=
      XElem.mk "tuv" [(xmlLangKey, target_lang)] "" [(XElem.mk "seg" [] row.target [], "")]
    XElem.mk "tu" [] ""
      ([(tuv_src, ""), (tuv_tgt, "")] ++ row.extra_tuvs.map (fun e => (e, "")))

/-- Python `dict.setdefault(k, v)`: keep an existing binding, else append. -/
def setdefault (l : List (String × String)) (k v : String) : List (String × String) :=
  match l.lookup k with
  | some _ => l
  | none => l ++ [(k, v)]

/-- The header attribute dictionary `write_tmx` synthesizes when no
header element was preserved: the stored attributes with defaults filled
in and `srclang` forced to the document's source language. -/
def synthHeaderAttribs (doc : AlignmentDocument) : List (String × String) :=
  let h0 := doc.header_attribs
  let h1 := setdefault h0 "creationtool" "TMXEditor"
  let h2 := setdefault h1 "creationtoolversion" "0.1.0"
  let h3 := setdefault h2 "segtype" "sentence"
  let h4 := setdefault h3 "o-tmf" "TMXEditor"
  let h5 := setdefault h4 "adminlang" "en"
  let h6 := setdefault h5 "srclang" doc.source_lang
  let h7 := setdefault h6 "datatype" "plaintext"
  setAttrList h7 "srclang" doc.source_lang

/-- The XML tree `write_tmx` builds (lines 274-299): a `tmx` root with
the rebuilt header (preserved element with `srclang` updated, else a
synthesized one) followed by a `body` holding one `tu` per row. -/
def write_tree (doc : AlignmentDocument) : XElem :=
  let headerElem : XElem :=
    match doc.header_element with
    | some h => h.setAttr "srclang" doc.source_lang
    | none => XElem.mk "header" (synthHeaderAttribs doc) "" []
  let tus := doc.rows.map (fun row => _build_tu_from_row row doc.source_lang doc.target_lang)
  let body := XElem.mk "body" [] "" (tus.map (fun tu => (tu, "")))
  XElem.mk "tmx" [("version", "1.4")] "" [(headerElem, ""), (body, "")]

/-- File store: association list from path to file content. -/
def FS : Type := List (String × String)

/-- Content at a path, `none` when no file exists there. -/
def fsRead (fs : FS) (p : String) : Option String :=
  List.lookup p fs

/-- Remove a path (no-op when absent). -/
def fsRemove (fs : FS) (p : String) : FS :=
  List.filter (fun e => e.1 ≠ p) fs

/-- Create or overwrite a file. -/
def fsWrite (fs : FS) (p c : String) : FS :=
  (p, c) :: fsRemove fs p

/-- Whether a file exists at a path. -/
def fsExists (fs : FS) (p : String) : Bool :=
  (fsRead fs p).isSome

/-- Name part of a path: everything after the last slash. -/
def pathNameOf (p : String) : String :=
  String.mk ((p.data.reverse.takeWhile (fun c => c ≠ '/')).reverse)

/-- Directory part of a path, the trailing slash included. -/
def pathDirPart (p : String) : String :=
  String.mk ((p.data.reverse.dropWhile (fun c => c ≠ '/')).reverse)

/-- `pathlib.PurePath.suffix` of a name: `name[i:]` for the last dot at
position `i` with `0 < i < len(name) - 1`-style bounds (a leading or
trailing dot yields no suffix). -/
def nameSuffix (name : String) : String :=
  let rev := name.data.reverse
  let afterDot := rev.takeWhile (fun c => c ≠ '.')
  match rev.dropWhile (fun c => c ≠ '.') with
  | [] => ""
  | _ :: before =>
    if before = [] then ""
    else if afterDot = [] then ""
    else String.mk ('.' :: afterDot.reverse)

/-- `pathlib.PurePath.suffix` of a path. -/
def pathSuffix (p : String) : String :=
  nameSuffix (pathNameOf p)

/-- `pathlib.PurePath.with_suffix`: replace (or append, when there is
none) the suffix of the final path component. -/
def pathWithSuffix (p s : String) : String :=
  let name := pathNameOf p
  let newName :=
    if nameSuffix name = "" then name ++ s
    else String.mk (name.data.take (name.data.length - (nameSuffix name).length)) ++ s
  pathDirPart p ++ newName

/-- The backup path `write_tmx` uses:
`path.with_suffix(path.suffix + ".bak")`. -/
def bakPathOf (p : String) : String :=
  pathWithSuffix p (pathSuffix p ++ ".bak")

/-- Result of the file-level part of `write_tmx`: the final store, and
whether the exception escaped (`ioError`) or not. -/
inductive WriteOutcome : Type where
  | ok : FS → WriteOutcome
  | ioError : FS → WriteOutcome

/-- Embeds the atomic-write tail of `write_tmx` (lines 308-328) against
the file store.  `xmlBytes` abstracts the serialized document,
`tmpPath` the fresh path `mkstemp` picks in the destination's directory,
and `writeFails`/`copyFails` whether `os.write` (resp. `shutil.copy2`)
raises.  The `except` branch closes the descriptor, unlinks the
temporary file when present, and re-raises. -/
def write_tmx_fs (fs : FS) (path xmlBytes : String) (backup : Bool)
    (tmpPath : String) (writeFails copyFails : Bool) : WriteOutcome :=
  let fs1 := fsWrite fs tmpPath ""
  if writeFails then .ioError (fsRemove fs1 tmpPath)
  else
    let fs2 := fsWrite fs1 tmpPath xmlBytes
    if backup && fsExists fs2 path then
      if copyFails then .ioError (fsRemove fs2 tmpPath)
      else
        let fs3 := fsWrite fs2 (bakPathOf path) ((fsRead fs2 path).getD "")
        .ok (fsWrite (fsRemove fs3 tmpPath) path xmlBytes)
    else .ok (fsWrite (fsRemove fs2 tmpPath) path xmlBytes)

/-- Row with one column's modified flag set and nothing else changed:
the net effect on a row of restoring its own text through `set_cell`. -/
def AlignmentRow.markCol (r : AlignmentRow) (col : Nat) : AlignmentRow :=
  if col = 0 then { r with source_modified := true } else { r with target_modified := true }

/-- Modified-flag of a cell, addressed like the cells themselves:
column 0 reads `source_modified`, anything else `target_modified`. -/
def AlignmentDocument.modFlag (doc : AlignmentDocument) (row col : Nat) : Bool :=
  match doc.rows[row]? with
  | some r => if col = 0 then r.source_modified else r.target_modified
  | none => false

/-- Document with its row list replaced (used to phrase intermediate
states in proofs). -/
def withRows (doc : AlignmentDocument) (l : List AlignmentRow) : AlignmentDocument :=
  { doc with rows := l }

/-- Example document used by concrete witnesses. -/
def exDocB : AlignmentDocument :=
  { rows := [{ source := "ab", target := "cd" }, { source := "ef", target := "gh" }] }

/-- The sequence of one column's cell texts over the whole document. -/
def colTexts (doc : AlignmentDocument) (c : Nat) : List String :=
  doc.rows.map (fun r => r.getCol c)

/-- Tuv element with only a plain `lang` attribute (for concrete trees). -/
def tuvPlain (lv : String) : XElem := XElem.mk "tuv" [("lang", lv)] "" []

/-- Tree on which C7 as stated fails: two `en` tuvs and one whose `lang`
attribute is a single space (truthy, normalizing to `""`). -/
def exTreeC7 : XElem :=
  XElem.mk "tmx" [] "" [(tuvPlain "en", ""), (tuvPlain "en", ""), (tuvPlain " ", "")]

/-- Whether a `tuv`'s normalized language equals the given language. -/
def matchesLang (lang : String) (t : XElem) : Bool :=
  _normalize_lang (tuvRawLang t) == lang

def bodyAllTu (b : XElem) : Bool :=
  b.children.all (fun c => decide (c.1.tag = "tu"))

def canonicalShape : XElem → Bool
  | .mk tag _ _ ch =>
    decide ((if tag.data.contains '}' then localnameOf tag else tag).toLower = "tmx") &&
    (match ch with
     | [(h, _), (b, _)] => decide (h.tag = "header") && decide (b.tag = "body") && bodyAllTu b
     | [(b, _)] => decide (b.tag = "body") && bodyAllTu b
     | _ => false)

def writeHeaderElem (doc : AlignmentDocument) : XElem :=
  match doc.header_element with
  | some h => h.setAttr "srclang" doc.source_lang
  | none => XElem.mk "header" (synthHeaderAttribs doc) "" []

def tuvEnC1 : XElem := .mk "tuv" [(xmlLangKey, "en")] "" [(.mk "seg" [] "hello" [], "")]

def tuvThC1 : XElem := .mk "tuv" [(xmlLangKey, "th")] "" [(.mk "seg" [] "sawatdee" [], "")]

def tuC1 : XElem := .mk "tu" [] "" [(tuvEnC1, "")]

def fooC1 : XElem := .mk "foo" [] "" [(tuvThC1, "")]

def bodyC1 : XElem := .mk "body" [] "" [(tuC1, ""), (fooC1, "")]

def exTreeC1 : XElem := .mk "tmx" [] "" [(bodyC1, "")]

def headerC1 : XElem := .mk "header" [("srclang", "en")] "" []

def tuOkC1 : XElem := .mk "tu" [] "" [(tuvEnC1, ""), (tuvThC1, "")]

def bodyOkC1 : XElem := .mk "body" [] "" [(tuOkC1, "")]

def exTreeC1ok : XElem := .mk "tmx" [] "" [(headerC1, ""), (bodyOkC1, "")]

def exRowC1 : AlignmentRow where
  source := "hello"
  target := "sawatdee"
  tu_element := some tuOkC1
  extra_tuvs := []
  source_modified := false
  target_modified := false

def exDocC1 : AlignmentDocument where
  rows := [exRowC1]
  source_lang := "en"
  target_lang := "th"
  header_attribs := [("srclang", "en")]
  header_element := some headerC1
  file_path := none

theorem getCol_setCol_self (r : AlignmentRow) (c : Nat) (t : String) :
    (r.setCol c t).getCol c = t := by
  by_cases h : c = 0 <;> simp [AlignmentRow.setCol, AlignmentRow.getCol, h]

theorem getCol_setCol_ne (r : AlignmentRow) (c c' : Nat) (t : String)
    (h : (c' = 0) ≠ (c = 0)) : (r.setCol c t).getCol c' = r.getCol c' := by
  by_cases h0 : c = 0 <;> by_cases h1 : c' = 0 <;>
    simp_all [AlignmentRow.setCol, AlignmentRow.getCol]

theorem setCol_setCol (r : AlignmentRow) (c : Nat) (t t' : String) :
    (r.setCol c t).setCol c t' = r.setCol c t' := by
  by_cases h : c = 0 <;> simp [AlignmentRow.setCol, h]

theorem setCol_getCol_self (r : AlignmentRow) (c : Nat) :
    r.setCol c (r.getCol c) = r.markCol c := by
  by_cases h : c = 0 <;> simp [AlignmentRow.setCol, AlignmentRow.getCol, AlignmentRow.markCol, h]

theorem getCol_markCol (r : AlignmentRow) (c c' : Nat) :
    (r.markCol c).getCol c' = r.getCol c' := by
  by_cases h : c = 0 <;> by_cases h' : c' = 0 <;>
    simp_all [AlignmentRow.markCol, AlignmentRow.getCol]

theorem source_markCol (r : AlignmentRow) (c : Nat) : (r.markCol c).source = r.source := by
  by_cases h : c = 0 <;> simp [AlignmentRow.markCol, h]

theorem target_markCol (r : AlignmentRow) (c : Nat) : (r.markCol c).target = r.target := by
  by_cases h : c = 0 <;> simp [AlignmentRow.markCol, h]

theorem insertIdx_get_eraseIdx :
    ∀ (l : List AlignmentRow) (n : Nat) (h : n < l.length),
      List.insertIdx n (l.get ⟨n, h⟩) (l.eraseIdx n) = l
  | _ :: _, 0, _ => rfl
  | x :: l, n + 1, h => by
    simp only [List.eraseIdx, List.insertIdx_succ_cons, List.cons.injEq, true_and]
    exact insertIdx_get_eraseIdx l n (Nat.lt_of_succ_lt_succ h)

theorem rows_set_cell (doc : AlignmentDocument) (r c : Nat) (t : String)
    (h : r < doc.rows.length) :
    (doc.set_cell r c t).rows = doc.rows.set r ((doc.rows.get ⟨r, h⟩).setCol c t) := by
  simp [AlignmentDocument.set_cell, List.getElem?_eq_getElem h]

theorem rows_set_cell_oob (doc : AlignmentDocument) (r c : Nat) (t : String)
    (h : ¬ r < doc.rows.length) : (doc.set_cell r c t).rows = doc.rows := by
  simp [AlignmentDocument.set_cell, List.getElem?_eq_none (Nat.le_of_not_lt h)]

theorem length_set_cell (doc : AlignmentDocument) (r c : Nat) (t : String) :
    (doc.set_cell r c t).rows.length = doc.rows.length := by
  by_cases h : r < doc.rows.length
  · rw [rows_set_cell doc r c t h]; simp
  · rw [rows_set_cell_oob doc r c t h]

theorem getCellD_eq_get (doc : AlignmentDocument) (r c : Nat) (h : r < doc.rows.length) :
    doc.getCellD r c = (doc.rows.get ⟨r, h⟩).getCol c := by
  simp [AlignmentDocument.getCellD, List.getElem?_eq_getElem h]

theorem set_cell_oob (doc : AlignmentDocument) (r c : Nat) (t : String)
    (h : ¬ r < doc.rows.length) : doc.set_cell r c t = doc := by
  simp [AlignmentDocument.set_cell, List.getElem?_eq_none (Nat.le_of_not_lt h)]

theorem getCellD_set_cell_same (doc : AlignmentDocument) (r c : Nat) (t : String)
    (h : r < doc.rows.length) : (doc.set_cell r c t).getCellD r c = t := by
  simp only [AlignmentDocument.getCellD, rows_set_cell doc r c t h]
  rw [List.getElem?_set_self (by simpa using h)]
  simp [getCol_setCol_self]

theorem getCellD_set_cell_other_row (doc : AlignmentDocument) (r c i c' : Nat) (t : String)
    (hir : i ≠ r) : (doc.set_cell r c t).getCellD i c' = doc.getCellD i c' := by
  by_cases h : r < doc.rows.length
  · simp [AlignmentDocument.getCellD, rows_set_cell doc r c t h,
      List.getElem?_set_ne (Ne.symm hir)]
  · rw [set_cell_oob doc r c t h]

theorem getCellD_set_cell_other_col (doc : AlignmentDocument) (r c c' : Nat) (t : String)
    (hc : (c' = 0) ≠ (c = 0)) : (doc.set_cell r c t).getCellD r c' = doc.getCellD r c' := by
  by_cases h : r < doc.rows.length
  · simp only [AlignmentDocument.getCellD, rows_set_cell doc r c t h]
    rw [List.getElem?_set_self (by simpa using h), List.getElem?_eq_getElem h]
    simp [getCol_setCol_ne _ _ _ _ hc]
  · rw [set_cell_oob doc r c t h]

theorem row_count_set_cell (doc : AlignmentDocument) (r c : Nat) (t : String) :
    (doc.set_cell r c t).row_count = doc.row_count := by
  simp [AlignmentDocument.row_count, length_set_cell]

theorem split_redo_eq_filled (doc : AlignmentDocument) (row col pos : Nat)
    (hnext : row + 1 < doc.rows.length) (hblank : doc.getCellD (row + 1) col = "") :
    (mkSplitCommand doc row col pos).redo doc =
      ({ mkSplitCommand doc row col pos with filled_existing := true },
        (doc.set_cell row col ((doc.getCellD row col).take pos)).set_cell (row + 1) col
          (if startsWithSpace ((doc.getCellD row col).drop pos) then
            ((doc.getCellD row col).drop pos).drop 1
          else (doc.getCellD row col).drop pos)) := by
  unfold SplitCommand.redo mkSplitCommand
  simp only []
  rw [if_pos]
  refine ⟨?_, ?_⟩
  · rw [row_count_set_cell]
    exact hnext
  · rw [getCellD_set_cell_other_row _ _ _ _ _ _ (by omega)]
    exact hblank

theorem split_redo_eq_inserted (doc : AlignmentDocument) (row col pos : Nat)
    (hcond : ¬ (row + 1 < doc.rows.length ∧ doc.getCellD (row + 1) col = "")) :
    (mkSplitCommand doc row col pos).redo doc =
      (let new_row : AlignmentRow :=
        if col = 0 then
          { source := if startsWithSpace ((doc.getCellD row col).drop pos) then
              ((doc.getCellD row col).drop pos).drop 1 else (doc.getCellD row col).drop pos,
            target := "" }
        else
          { source := "",
            target := if startsWithSpace ((doc.getCellD row col).drop pos) then
              ((doc.getCellD row col).drop pos).drop 1 else (doc.getCellD row col).drop pos }
      ({ mkSplitCommand doc row col pos with filled_existing := false, new_row := some new_row },
        (doc.set_cell row col ((doc.getCellD row col).take pos)).insert_row (row + 1) new_row)) := by
  unfold SplitCommand.redo mkSplitCommand
  simp only []
  rw [if_neg]
  intro h
  exact hcond ⟨by rw [row_count_set_cell] at h; exact h.1,
    by rw [getCellD_set_cell_other_row _ _ _ _ _ _ (by omega)] at h; exact h.2⟩

theorem split_do_undo_filled (doc : AlignmentDocument) (row col pos : Nat)
    (hrow : row < doc.rows.length) (hnext : row + 1 < doc.rows.length)
    (hblank : doc.getCellD (row + 1) col = "") :
    (((mkSplitCommand doc row col pos).redo doc).1.undo
        ((mkSplitCommand doc row col pos).redo doc).2).rows =
      (doc.rows.set row ((doc.rows.get ⟨row, hrow⟩).markCol col)).set (row + 1)
        ((doc.rows.get ⟨row + 1, hnext⟩).markCol col) := by
  rw [split_redo_eq_filled doc row col pos hnext hblank]
  simp only [SplitCommand.undo, mkSplitCommand, eq_self_iff_true, if_true]
  set lft := (doc.getCellD row col).take pos with hlft
  set rgt := (if startsWithSpace ((doc.getCellD row col).drop pos) then
      ((doc.getCellD row col).drop pos).drop 1 else (doc.getCellD row col).drop pos) with hrgt
  set r0 := doc.rows.get ⟨row, hrow⟩ with hr0
  set r1 := doc.rows.get ⟨row + 1, hnext⟩ with hr1
  have e1 : (doc.set_cell row col lft).rows = doc.rows.set row (r0.setCol col lft) :=
    rows_set_cell doc row col lft hrow
  have l1 : (doc.set_cell row col lft).rows.length = doc.rows.length := length_set_cell ..
  have hnext1 : row + 1 < (doc.set_cell row col lft).rows.length := by rw [l1]; exact hnext
  have g1 : (doc.set_cell row col lft).rows.get ⟨row + 1, hnext1⟩ = r1 := by
    simp only [e1, List.get_eq_getElem]
    rw [List.getElem_set_ne (by omega)]
    simp [hr1]
  have e2 : ((doc.set_cell row col lft).set_cell (row + 1) col rgt).rows =
      (doc.rows.set row (r0.setCol col lft)).set (row + 1) (r1.setCol col rgt) := by
    rw [rows_set_cell _ (row + 1) col rgt hnext1, g1, e1]
  have l2 : ((doc.set_cell row col lft).set_cell (row + 1) col rgt).rows.length =
      doc.rows.length := by rw [length_set_cell, l1]
  have hnext2 : row + 1 < ((doc.set_cell row col lft).set_cell (row + 1) col rgt).rows.length := by
    rw [l2]; exact hnext
  have g2 : ((doc.set_cell row col lft).set_cell (row + 1) col rgt).rows.get ⟨row + 1, hnext2⟩ =
      r1.setCol col rgt := by
    simp only [e2, List.get_eq_getElem]
    rw [List.getElem_set_self]
  have e3 : (((doc.set_cell row col lft).set_cell (row + 1) col rgt).set_cell (row + 1) col "").rows
      = (doc.rows.set row (r0.setCol col lft)).set (row + 1) (r1.markCol col) := by
    rw [rows_set_cell _ (row + 1) col "" hnext2, g2, e2, List.set_set, setCol_setCol]
    have hb : r1.getCol col = "" := by
      rw [getCellD_eq_get doc (row + 1) col hnext] at hblank; exact hblank
    rw [← hb, setCol_getCol_self]
  have l3 : (((doc.set_cell row col lft).set_cell (row + 1) col rgt).set_cell
      (row + 1) col "").rows.length = doc.rows.length := by
    rw [length_set_cell, l2]
  have hrow3 : row < (((doc.set_cell row col lft).set_cell (row + 1) col rgt).set_cell
      (row + 1) col "").rows.length := by rw [l3]; exact hrow
  have g3 : (((doc.set_cell row col lft).set_cell (row + 1) col rgt).set_cell
      (row + 1) col "").rows.get ⟨row, hrow3⟩ = r0.setCol col lft := by
    simp only [e3, List.get_eq_getElem]
    rw [List.getElem_set_ne (by omega), List.getElem_set_self]
  rw [rows_set_cell _ row col _ hrow3, g3, e3, setCol_setCol]
  rw [getCellD_eq_get doc row col hrow, ← hr0, setCol_getCol_self,
    List.set_comm _ _ _ (by omega), List.set_set, ← List.set_comm _ _ _ (by omega)]

theorem split_do_undo_inserted (doc : AlignmentDocument) (row col pos : Nat)
    (hrow : row < doc.rows.length)
    (hcond : ¬ (row + 1 < doc.rows.length ∧ doc.getCellD (row + 1) col = "")) :
    (((mkSplitCommand doc row col pos).redo doc).1.undo
        ((mkSplitCommand doc row col pos).redo doc).2).rows =
      doc.rows.set row ((doc.rows.get ⟨row, hrow⟩).markCol col) := by
  rw [split_redo_eq_inserted doc row col pos hcond]
  simp only [SplitCommand.undo, mkSplitCommand, AlignmentDocument.insert_row,
    AlignmentDocument.remove_row, Bool.false_eq_true, if_false]
  set lft := (doc.getCellD row col).take pos with hlft
  set r0 := doc.rows.get ⟨row, hrow⟩ with hr0
  have e1 : (doc.set_cell row col lft).rows = doc.rows.set row (r0.setCol col lft) :=
    rows_set_cell doc row col lft hrow
  rw [e1, List.eraseIdx_insertIdx]
  have hrow1 : row < (doc.rows.set row (r0.setCol col lft)).length := by
    rw [List.length_set]; exact hrow
  have hget : (doc.rows.set row (r0.setCol col lft))[row]? = some (r0.setCol col lft) := by
    rw [List.getElem?_set_self (by simpa using hrow)]
  simp only [AlignmentDocument.set_cell, hget]
  rw [List.set_set, setCol_setCol, getCellD_eq_get doc row col hrow, ← hr0, setCol_getCol_self]

theorem merge_redo_eq_kept (doc : AlignmentDocument) (row col : Nat)
    (hother : doc.getCellD (row + 1) (1 - col) ≠ "") :
    (mkMergeCommand doc row col).redo doc =
      ({ mkMergeCommand doc row col with row_removed := false },
        (doc.set_cell row col
          (if doc.getCellD row col ≠ "" ∧ doc.getCellD (row + 1) col ≠ "" then
            doc.getCellD row col ++ " " ++ doc.getCellD (row + 1) col
          else doc.getCellD row col ++ doc.getCellD (row + 1) col)).set_cell (row + 1) col "") := by
  unfold MergeCommand.redo mkMergeCommand
  simp only []
  rw [if_pos hother]

theorem merge_redo_eq_removed (doc : AlignmentDocument) (row col : Nat)
    (hother : doc.getCellD (row + 1) (1 - col) = "") :
    (mkMergeCommand doc row col).redo doc =
      (let doc1 := doc.set_cell row col
        (if doc.getCellD row col ≠ "" ∧ doc.getCellD (row + 1) col ≠ "" then
          doc.getCellD row col ++ " " ++ doc.getCellD (row + 1) col
        else doc.getCellD row col ++ doc.getCellD (row + 1) col);
      ({ mkMergeCommand doc row col with
          row_removed := true
          removed_row := doc1.rows[row + 1]? },
        doc1.remove_row (row + 1))) := by
  unfold MergeCommand.redo mkMergeCommand
  simp only []
  rw [if_neg (by simpa using hother)]

theorem merge_do_undo_kept (doc : AlignmentDocument) (row col : Nat)
    (hrow : row < doc.rows.length) (hnext : row + 1 < doc.rows.length)
    (hother : doc.getCellD (row + 1) (1 - col) ≠ "") :
    (((mkMergeCommand doc row col).redo doc).1.undo
        ((mkMergeCommand doc row col).redo doc).2).rows =
      (doc.rows.set row ((doc.rows.get ⟨row, hrow⟩).markCol col)).set (row + 1)
        ((doc.rows.get ⟨row + 1, hnext⟩).markCol col) := by
  rw [merge_redo_eq_kept doc row col hother]
  simp only [MergeCommand.undo, mkMergeCommand, Bool.false_eq_true, if_false]
  set mrg := (if doc.getCellD row col ≠ "" ∧ doc.getCellD (row + 1) col ≠ "" then
      doc.getCellD row col ++ " " ++ doc.getCellD (row + 1) col
    else doc.getCellD row col ++ doc.getCellD (row + 1) col) with hmrg
  set r0 := doc.rows.get ⟨row, hrow⟩ with hr0
  set r1 := doc.rows.get ⟨row + 1, hnext⟩ with hr1
  have e1 : (doc.set_cell row col mrg).rows = doc.rows.set row (r0.setCol col mrg) :=
    rows_set_cell doc row col mrg hrow
  have hnext1 : row + 1 < (doc.set_cell row col mrg).rows.length := by
    rw [length_set_cell]; exact hnext
  have g1 : (doc.set_cell row col mrg).rows.get ⟨row + 1, hnext1⟩ = r1 := by
    simp only [e1, List.get_eq_getElem]
    rw [List.getElem_set_ne (by omega)]
    simp [hr1]
  have e2 : ((doc.set_cell row col mrg).set_cell (row + 1) col "").rows =
      (doc.rows.set row (r0.setCol col mrg)).set (row + 1) (r1.setCol col "") := by
    rw [rows_set_cell _ (row + 1) col "" hnext1, g1, e1]
  have hnext2 : row + 1 < ((doc.set_cell row col mrg).set_cell (row + 1) col "").rows.length := by
    rw [length_set_cell, length_set_cell]; exact hnext
  have g2 : ((doc.set_cell row col mrg).set_cell (row + 1) col "").rows.get ⟨row + 1, hnext2⟩ =
      r1.setCol col "" := by
    simp only [e2, List.get_eq_getElem]
    rw [List.getElem_set_self]
  have e3 : (((doc.set_cell row col mrg).set_cell (row + 1) col "").set_cell (row + 1) col
      (doc.getCellD (row + 1) col)).rows =
      (doc.rows.set row (r0.setCol col mrg)).set (row + 1) (r1.markCol col) := by
    rw [rows_set_cell _ (row + 1) col _ hnext2, g2, e2, List.set_set, setCol_setCol,
      getCellD_eq_get doc (row + 1) col hnext, ← hr1, setCol_getCol_self]
  have hrow3 : row < (((doc.set_cell row col mrg).set_cell (row + 1) col "").set_cell (row + 1)
      col (doc.getCellD (row + 1) col)).rows.length := by
    rw [length_set_cell, length_set_cell, length_set_cell]; exact hrow
  have g3 : (((doc.set_cell row col mrg).set_cell (row + 1) col "").set_cell (row + 1) col
      (doc.getCellD (row + 1) col)).rows.get ⟨row, hrow3⟩ = r0.setCol col mrg := by
    simp only [e3, List.get_eq_getElem]
    rw [List.getElem_set_ne (by omega), List.getElem_set_self]
  rw [rows_set_cell _ row col _ hrow3, g3, e3, setCol_setCol,
    getCellD_eq_get doc row col hrow, ← hr0, setCol_getCol_self,
    List.set_comm _ _ _ (by omega), List.set_set, ← List.set_comm _ _ _ (by omega)]

theorem merge_do_undo_removed (doc : AlignmentDocument) (row col : Nat)
    (hrow : row < doc.rows.length) (hnext : row + 1 < doc.rows.length)
    (hother : doc.getCellD (row + 1) (1 - col) = "") :
    (((mkMergeCommand doc row col).redo doc).1.undo
        ((mkMergeCommand doc row col).redo doc).2).rows =
      doc.rows.set row ((doc.rows.get ⟨row, hrow⟩).markCol col) := by
  rw [merge_redo_eq_removed doc row col hother]
  simp only [MergeCommand.undo, mkMergeCommand, AlignmentDocument.insert_row,
    AlignmentDocument.remove_row, eq_self_iff_true, if_true]
  set mrg := (if doc.getCellD row col ≠ "" ∧ doc.getCellD (row + 1) col ≠ "" then
      doc.getCellD row col ++ " " ++ doc.getCellD (row + 1) col
    else doc.getCellD row col ++ doc.getCellD (row + 1) col) with hmrg
  set r0 := doc.rows.get ⟨row, hrow⟩ with hr0
  set r1 := doc.rows.get ⟨row + 1, hnext⟩ with hr1
  have e1 : (doc.set_cell row col mrg).rows = doc.rows.set row (r0.setCol col mrg) :=
    rows_set_cell doc row col mrg hrow
  have hnext1 : row + 1 < (doc.set_cell row col mrg).rows.length := by
    rw [length_set_cell]; exact hnext
  have g1 : (doc.set_cell row col mrg).rows[row + 1]? = some r1 := by
    rw [e1, List.getElem?_set_ne (by omega), List.getElem?_eq_getElem hnext]
    simp [hr1]
  simp only [g1]
  have gA : (doc.set_cell row col mrg).rows.get ⟨row + 1, hnext1⟩ = r1 := by
    simp only [e1, List.get_eq_getElem]
    rw [List.getElem_set_ne (by omega)]
    simp [hr1]
  have e2 : List.insertIdx (row + 1) r1 ((doc.set_cell row col mrg).rows.eraseIdx (row + 1)) =
      (doc.set_cell row col mrg).rows := by
    rw [← gA]
    exact insertIdx_get_eraseIdx _ _ hnext1
  simp only [e2]
  have hg0 : doc.rows[row]? = some r0 := by
    rw [List.getElem?_eq_getElem hrow]
    simp [hr0]
  have hset : (doc.rows.set row (r0.setCol col mrg))[row]? = some (r0.setCol col mrg) :=
    List.getElem?_set_self (by simpa using hrow)
  simp only [AlignmentDocument.set_cell, hg0, hset]
  rw [List.set_set, setCol_setCol, getCellD_eq_get doc row col hrow, ← hr0, setCol_getCol_self]

theorem move_do_undo (doc : AlignmentDocument) (row col : Nat) (direction : Int)
    (hrow : row < doc.rows.length)
    (htgt : ((row : Int) + direction).toNat < doc.rows.length)
    (hne : ((row : Int) + direction).toNat ≠ row) :
    (let c : MoveCellCommand := { row := row, col := col, direction := direction }
    (c.undo (c.redo doc)).rows) =
      (doc.rows.set row ((doc.rows.get ⟨row, hrow⟩).markCol col)).set
        ((row : Int) + direction).toNat
        ((doc.rows.get ⟨((row : Int) + direction).toNat, htgt⟩).markCol col) := by
  simp only [MoveCellCommand.redo, MoveCellCommand.undo]
  set tgt := ((row : Int) + direction).toNat with htgtdef
  set r0 := doc.rows.get ⟨row, hrow⟩ with hr0
  set rt := doc.rows.get ⟨tgt, htgt⟩ with hrt
  have ha : doc.getCellD row col = r0.getCol col := getCellD_eq_get doc row col hrow
  have hb : doc.getCellD tgt col = rt.getCol col := getCellD_eq_get doc tgt col htgt
  have e1 : (doc.set_cell row col (rt.getCol col)).rows =
      doc.rows.set row (r0.setCol col (rt.getCol col)) := rows_set_cell doc row col _ hrow
  have htgt1 : tgt < (doc.set_cell row col (rt.getCol col)).rows.length := by
    rw [length_set_cell]; exact htgt
  have g1 : (doc.set_cell row col (rt.getCol col)).rows.get ⟨tgt, htgt1⟩ = rt := by
    simp only [e1, List.get_eq_getElem]
    rw [List.getElem_set_ne (by omega)]
    simp [hrt]
  have e2 : ((doc.set_cell row col (rt.getCol col)).set_cell tgt col (r0.getCol col)).rows =
      (doc.rows.set row (r0.setCol col (rt.getCol col))).set tgt
        (rt.setCol col (r0.getCol col)) := by
    rw [rows_set_cell _ tgt col _ htgt1, g1, e1]
  set X := (doc.set_cell row col (rt.getCol col)).set_cell tgt col (r0.getCol col) with hX
  have hrow2 : row < X.rows.length := by
    rw [hX, length_set_cell, length_set_cell]; exact hrow
  have htgt2 : tgt < X.rows.length := by
    rw [hX, length_set_cell, length_set_cell]; exact htgt
  have gXrow : X.rows.get ⟨row, hrow2⟩ = r0.setCol col (rt.getCol col) := by
    simp only [e2, List.get_eq_getElem]
    rw [List.getElem_set_ne hne, List.getElem_set_self]
  have gXtgt : X.rows.get ⟨tgt, htgt2⟩ = rt.setCol col (r0.getCol col) := by
    simp only [e2, List.get_eq_getElem]
    rw [List.getElem_set_self]
  have ga : X.getCellD row col = rt.getCol col := by
    rw [getCellD_eq_get X row col hrow2, gXrow, getCol_setCol_self]
  have gb : X.getCellD tgt col = r0.getCol col := by
    rw [getCellD_eq_get X tgt col htgt2, gXtgt, getCol_setCol_self]
  rw [ha, hb, ← hX, ga, gb]
  have e3 : (X.set_cell row col (r0.getCol col)).rows =
      ((doc.rows.set row (r0.setCol col (rt.getCol col))).set tgt
        (rt.setCol col (r0.getCol col))).set row (r0.markCol col) := by
    rw [rows_set_cell X row col _ hrow2, gXrow, hX, e2, setCol_setCol, setCol_getCol_self]
  have htgt3 : tgt < (X.set_cell row col (r0.getCol col)).rows.length := by
    rw [length_set_cell]; exact htgt2
  have g3 : (X.set_cell row col (r0.getCol col)).rows.get ⟨tgt, htgt3⟩ =
      rt.setCol col (r0.getCol col) := by
    simp only [e3, List.get_eq_getElem]
    rw [List.getElem_set_ne (by omega), List.getElem_set_self]
  rw [rows_set_cell _ tgt col _ htgt3, g3, e3, setCol_setCol, setCol_getCol_self]
  rw [List.set_comm _ _ _ (by omega), List.set_set]
  rw [List.set_comm _ _ _ (by omega), List.set_set, ← List.set_comm _ _ _ (by omega)]

theorem edit_do_undo (doc : AlignmentDocument) (row col : Nat) (old new : String)
    (hrow : row < doc.rows.length) (hold : old = doc.getCellD row col) :
    (let c : EditCellCommand := { row := row, col := col, old := old, new := new }
    (c.undo (c.redo doc)).rows) =
      doc.rows.set row ((doc.rows.get ⟨row, hrow⟩).markCol col) := by
  simp only [EditCellCommand.redo, EditCellCommand.undo]
  set r0 := doc.rows.get ⟨row, hrow⟩ with hr0
  have e1 : (doc.set_cell row col new).rows = doc.rows.set row (r0.setCol col new) :=
    rows_set_cell doc row col new hrow
  have hrow1 : row < (doc.set_cell row col new).rows.length := by
    rw [length_set_cell]; exact hrow
  have g1 : (doc.set_cell row col new).rows.get ⟨row, hrow1⟩ = r0.setCol col new := by
    simp only [e1, List.get_eq_getElem]
    rw [List.getElem_set_self]
  rw [rows_set_cell _ row col old hrow1, g1, e1, List.set_set, setCol_setCol, hold,
    getCellD_eq_get doc row col hrow, ← hr0, setCol_getCol_self]

theorem delete_do_undo (doc : AlignmentDocument) (row : Nat) (hrow : row < doc.rows.length) :
    (let c : DeleteEmptyRowCommand := { row := row }
    (((c.redo doc).1).undo (c.redo doc).2).rows) = doc.rows := by
  simp only [DeleteEmptyRowCommand.redo, DeleteEmptyRowCommand.undo,
    AlignmentDocument.remove_row, AlignmentDocument.insert_row]
  rw [List.getElem?_eq_getElem hrow]
  simp only []
  exact insertIdx_get_eraseIdx doc.rows row hrow

theorem getCellD_of_rows_set_markCol (doc d' : AlignmentDocument) (r c : Nat)
    (x : AlignmentRow) (hx : doc.rows[r]? = some x)
    (h : d'.rows = doc.rows.set r (x.markCol c)) (i c' : Nat) :
    d'.getCellD i c' = doc.getCellD i c' := by
  have hr : r < doc.rows.length := by
    by_contra hlt
    rw [List.getElem?_eq_none (Nat.le_of_not_lt hlt)] at hx
    exact Option.noConfusion hx
  by_cases hir : i = r
  · subst hir
    simp only [AlignmentDocument.getCellD, h]
    rw [List.getElem?_set_self (by simpa using hr), hx]
    simp [getCol_markCol]
  · simp only [AlignmentDocument.getCellD, h, List.getElem?_set_ne (Ne.symm hir)]

theorem modFlag_of_rows_set_markCol (doc d' : AlignmentDocument) (r c : Nat)
    (x : AlignmentRow) (hx : doc.rows[r]? = some x)
    (h : d'.rows = doc.rows.set r (x.markCol c)) :
    d'.modFlag r c = true := by
  have hr : r < doc.rows.length := by
    by_contra hlt
    rw [List.getElem?_eq_none (Nat.le_of_not_lt hlt)] at hx
    exact Option.noConfusion hx
  simp only [AlignmentDocument.modFlag, h]
  rw [List.getElem?_set_self (by simpa using hr)]
  by_cases hc : c = 0 <;> simp [AlignmentRow.markCol, hc]

theorem get_eq_some_of_lt (l : List AlignmentRow) (i : Nat) (h : i < l.length) :
    l[i]? = some (l.get ⟨i, h⟩) := by
  rw [List.getElem?_eq_getElem h, List.get_eq_getElem]

theorem getElem_set_ne_some (l : List AlignmentRow) (i j : Nat) (a : AlignmentRow)
    (hij : i ≠ j) (hj : j < l.length) : (l.set i a)[j]? = some (l.get ⟨j, hj⟩) := by
  rw [List.getElem?_set_ne hij, get_eq_some_of_lt l j hj]

theorem split_do_undo_preserves (doc : AlignmentDocument) (row col pos : Nat)
    (hrow : row < doc.rows.length) :
    ((((mkSplitCommand doc row col pos).redo doc).1.undo
        ((mkSplitCommand doc row col pos).redo doc).2).row_count = doc.row_count) ∧
      (∀ i cc, (((mkSplitCommand doc row col pos).redo doc).1.undo
        ((mkSplitCommand doc row col pos).redo doc).2).getCellD i cc = doc.getCellD i cc) := by
  by_cases hc : row + 1 < doc.rows.length ∧ doc.getCellD (row + 1) col = ""
  · have key := split_do_undo_filled doc row col pos hrow hc.1 hc.2
    set d1 := withRows doc (doc.rows.set row ((doc.rows.get ⟨row, hrow⟩).markCol col)) with hd1
    have hx1 : d1.rows[row + 1]? = some (doc.rows.get ⟨row + 1, hc.1⟩) :=
      getElem_set_ne_some doc.rows row (row + 1) _ (by omega) hc.1
    have hEq : (((mkSplitCommand doc row col pos).redo doc).1.undo
        ((mkSplitCommand doc row col pos).redo doc).2).rows =
        d1.rows.set (row + 1) ((doc.rows.get ⟨row + 1, hc.1⟩).markCol col) := key
    constructor
    · simp only [AlignmentDocument.row_count, hEq, hd1, withRows, List.length_set]
    · intro i cc
      rw [getCellD_of_rows_set_markCol d1 _ (row + 1) col _ hx1 hEq i cc,
        getCellD_of_rows_set_markCol doc d1 row col _
          (get_eq_some_of_lt doc.rows row hrow) rfl i cc]
  · have key := split_do_undo_inserted doc row col pos hrow hc
    constructor
    · simp only [AlignmentDocument.row_count, key, List.length_set]
    · intro i cc
      exact getCellD_of_rows_set_markCol doc _ row col _
        (get_eq_some_of_lt doc.rows row hrow) key i cc

theorem merge_do_undo_preserves (doc : AlignmentDocument) (row col : Nat)
    (hnext : row + 1 < doc.rows.length) :
    ((((mkMergeCommand doc row col).redo doc).1.undo
        ((mkMergeCommand doc row col).redo doc).2).row_count = doc.row_count) ∧
      (∀ i cc, (((mkMergeCommand doc row col).redo doc).1.undo
        ((mkMergeCommand doc row col).redo doc).2).getCellD i cc = doc.getCellD i cc) := by
  have hrow : row < doc.rows.length := by omega
  by_cases hc : doc.getCellD (row + 1) (1 - col) = ""
  · have key := merge_do_undo_removed doc row col hrow hnext hc
    constructor
    · simp only [AlignmentDocument.row_count, key, List.length_set]
    · intro i cc
      exact getCellD_of_rows_set_markCol doc _ row col _
        (get_eq_some_of_lt doc.rows row hrow) key i cc
  · have key := merge_do_undo_kept doc row col hrow hnext hc
    set d1 := withRows doc (doc.rows.set row ((doc.rows.get ⟨row, hrow⟩).markCol col)) with hd1
    have hx1 : d1.rows[row + 1]? = some (doc.rows.get ⟨row + 1, hnext⟩) :=
      getElem_set_ne_some doc.rows row (row + 1) _ (by omega) hnext
    have hEq : (((mkMergeCommand doc row col).redo doc).1.undo
        ((mkMergeCommand doc row col).redo doc).2).rows =
        d1.rows.set (row + 1) ((doc.rows.get ⟨row + 1, hnext⟩).markCol col) := key
    constructor
    · simp only [AlignmentDocument.row_count, hEq, hd1, withRows, List.length_set]
    · intro i cc
      rw [getCellD_of_rows_set_markCol d1 _ (row + 1) col _ hx1 hEq i cc,
        getCellD_of_rows_set_markCol doc d1 row col _
          (get_eq_some_of_lt doc.rows row hrow) rfl i cc]

theorem move_do_undo_preserves (doc : AlignmentDocument) (row col : Nat) (direction : Int)
    (hrow : row < doc.rows.length)
    (htgt : ((row : Int) + direction).toNat < doc.rows.length)
    (hne : ((row : Int) + direction).toNat ≠ row) :
    (let c : MoveCellCommand := { row := row, col := col, direction := direction }
    ((c.undo (c.redo doc)).row_count = doc.row_count) ∧
      (∀ i cc, (c.undo (c.redo doc)).getCellD i cc = doc.getCellD i cc)) := by
  have key := move_do_undo doc row col direction hrow htgt hne
  simp only at key
  set d1 := withRows doc (doc.rows.set row ((doc.rows.get ⟨row, hrow⟩).markCol col)) with hd1
  have hx1 : d1.rows[((row : Int) + direction).toNat]? =
      some (doc.rows.get ⟨((row : Int) + direction).toNat, htgt⟩) :=
    getElem_set_ne_some doc.rows row _ _ (Ne.symm hne) htgt
  have hEq : (MoveCellCommand.undo { row := row, col := col, direction := direction }
      (MoveCellCommand.redo { row := row, col := col, direction := direction } doc)).rows =
      d1.rows.set (((row : Int) + direction).toNat)
        ((doc.rows.get ⟨((row : Int) + direction).toNat, htgt⟩).markCol col) := key
  constructor
  · simp only [AlignmentDocument.row_count, hEq, hd1, withRows, List.length_set]
  · intro i cc
    rw [getCellD_of_rows_set_markCol d1 _ (((row : Int) + direction).toNat) col _ hx1 hEq i cc,
      getCellD_of_rows_set_markCol doc d1 row col _
        (get_eq_some_of_lt doc.rows row hrow) rfl i cc]

theorem edit_do_undo_preserves (doc : AlignmentDocument) (row col : Nat) (newText : String)
    (hrow : row < doc.rows.length) :
    (let c : EditCellCommand :=
      { row := row, col := col, old := doc.getCellD row col, new := newText }
    ((c.undo (c.redo doc)).row_count = doc.row_count) ∧
      (∀ i cc, (c.undo (c.redo doc)).getCellD i cc = doc.getCellD i cc)) := by
  have key := edit_do_undo doc row col (doc.getCellD row col) newText hrow rfl
  simp only at key
  constructor
  · simp only [AlignmentDocument.row_count, key, List.length_set]
  · intro i cc
    exact getCellD_of_rows_set_markCol doc _ row col _
      (get_eq_some_of_lt doc.rows row hrow) key i cc

theorem delete_do_undo_preserves (doc : AlignmentDocument) (row : Nat)
    (hrow : row < doc.rows.length) :
    (let c : DeleteEmptyRowCommand := { row := row }
    ((((c.redo doc).1).undo (c.redo doc).2).row_count = doc.row_count) ∧
      (∀ i cc, (((c.redo doc).1).undo (c.redo doc).2).getCellD i cc = doc.getCellD i cc)) := by
  have key := delete_do_undo doc row hrow
  simp only at key
  constructor
  · simp only [AlignmentDocument.row_count, key]
  · intro i cc
    simp only [AlignmentDocument.getCellD, key]

/-- C2: for every command type (Split, Merge, MoveCell, EditCell,
DeleteEmptyRow) applied under the command's preconditions, `do()`
followed by `undo()` restores `rowCount` and the text of every cell
(so in particular of every affected cell) to the pre-`do` values, in
both branches of each conditional behavior; the branch case splits are
inside the proof. -/
theorem spec_c2_undo_exactness :
    (∀ (doc : AlignmentDocument) (row col pos : Nat), row < doc.row_count →
      ((((mkSplitCommand doc row col pos).redo doc).1.undo
          ((mkSplitCommand doc row col pos).redo doc).2).row_count = doc.row_count) ∧
        (∀ i cc, (((mkSplitCommand doc row col pos).redo doc).1.undo
          ((mkSplitCommand doc row col pos).redo doc).2).getCellD i cc = doc.getCellD i cc)) ∧
    (∀ (doc : AlignmentDocument) (row col : Nat), row + 1 < doc.row_count →
      ((((mkMergeCommand doc row col).redo doc).1.undo
          ((mkMergeCommand doc row col).redo doc).2).row_count = doc.row_count) ∧
        (∀ i cc, (((mkMergeCommand doc row col).redo doc).1.undo
          ((mkMergeCommand doc row col).redo doc).2).getCellD i cc = doc.getCellD i cc)) ∧
    (∀ (doc : AlignmentDocument) (row col : Nat) (direction : Int),
      row < doc.row_count → (direction = 1 ∨ direction = -1) →
      0 ≤ (row : Int) + direction → (row : Int) + direction < (doc.row_count : Int) →
      (let c : MoveCellCommand := { row := row, col := col, direction := direction }
      ((c.undo (c.redo doc)).row_count = doc.row_count) ∧
        (∀ i cc, (c.undo (c.redo doc)).getCellD i cc = doc.getCellD i cc))) ∧
    (∀ (doc : AlignmentDocument) (row col : Nat) (newText : String), row < doc.row_count →
      (let c : EditCellCommand :=
        { row := row, col := col, old := doc.getCellD row col, new := newText }
      ((c.undo (c.redo doc)).row_count = doc.row_count) ∧
        (∀ i cc, (c.undo (c.redo doc)).getCellD i cc = doc.getCellD i cc))) ∧
    (∀ (doc : AlignmentDocument) (row : Nat), row < doc.row_count →
      (let c : DeleteEmptyRowCommand := { row := row }
      ((((c.redo doc).1).undo (c.redo doc).2).row_count = doc.row_count) ∧
        (∀ i cc, (((c.redo doc).1).undo (c.redo doc).2).getCellD i cc = doc.getCellD i cc))) := by
  refine ⟨?_, ?_, ?_, ?_, ?_⟩
  · intro doc row col pos hrow
    exact split_do_undo_preserves doc row col pos hrow
  · intro doc row col hnext
    exact merge_do_undo_preserves doc row col hnext
  · intro doc row col direction hrow hdir h0 h1
    have htgt : ((row : Int) + direction).toNat < doc.rows.length := by
      have : (doc.row_count : Int) = (doc.rows.length : Int) := rfl
      omega
    have hne : ((row : Int) + direction).toNat ≠ row := by
      rcases hdir with h | h <;> subst h <;> omega
    exact move_do_undo_preserves doc row col direction hrow htgt hne
  · intro doc row col newText hrow
    exact edit_do_undo_preserves doc row col newText hrow
  · intro doc row hrow
    exact delete_do_undo_preserves doc row hrow

/-- Witness for C2 at a concrete two-row document: a split at `(0,0,1)`
is exactly undone. -/
theorem spec_c2_undo_exactness_witness :
    (0 < exDocB.row_count) ∧
      ((((mkSplitCommand exDocB 0 0 1).redo exDocB).1.undo
        ((mkSplitCommand exDocB 0 0 1).redo exDocB).2).row_count = exDocB.row_count) ∧
      ((((mkSplitCommand exDocB 0 0 1).redo exDocB).1.undo
        ((mkSplitCommand exDocB 0 0 1).redo exDocB).2).getCellD 0 0 = exDocB.getCellD 0 0) :=
  ⟨by decide, (spec_c2_undo_exactness.1 exDocB 0 0 1 (by decide)).1,
    (spec_c2_undo_exactness.1 exDocB 0 0 1 (by decide)).2 0 0⟩

theorem getCellD_insert_row_self (doc : AlignmentDocument) (k : Nat) (x : AlignmentRow)
    (c : Nat) (hk : k ≤ doc.rows.length) : (doc.insert_row k x).getCellD k c = x.getCol c := by
  simp only [AlignmentDocument.insert_row, AlignmentDocument.getCellD]
  have hlen : k < (doc.rows.insertIdx k x).length := by
    rw [List.length_insertIdx k doc.rows hk]; omega
  rw [List.getElem?_eq_getElem hlen]
  have := List.getElem_insertIdx_self doc.rows x k hk
  simp_all

theorem getCellD_insert_row_lt (doc : AlignmentDocument) (k : Nat) (x : AlignmentRow)
    (i c : Nat) (hik : i < k) (hi : i < doc.rows.length) :
    (doc.insert_row k x).getCellD i c = doc.getCellD i c := by
  simp only [AlignmentDocument.insert_row, AlignmentDocument.getCellD]
  have hk' : k ≤ doc.rows.length ∨ doc.rows.length < k := le_or_lt k doc.rows.length
  rcases hk' with hk | hk
  · have hlen : i < (doc.rows.insertIdx k x).length := by
      rw [List.length_insertIdx k doc.rows hk]; omega
    rw [List.getElem?_eq_getElem hlen, List.getElem?_eq_getElem hi]
    have := List.getElem_insertIdx_of_lt doc.rows x k i hik hi hlen
    simp_all
  · rw [List.insertIdx_of_length_lt doc.rows x k hk]

theorem row_count_insert_row (doc : AlignmentDocument) (k : Nat) (x : AlignmentRow)
    (hk : k ≤ doc.rows.length) : (doc.insert_row k x).row_count = doc.row_count + 1 := by
  simp only [AlignmentDocument.insert_row, AlignmentDocument.row_count]
  exact List.length_insertIdx k doc.rows hk

/-- C3: splitting at `(row, col, pos)` with `0 < pos < length(text)` puts
`text[0:pos]` in `(row, col)`; the remainder (one leading space stripped
when present) fills the blank cell `(row+1, col)` when the next row
exists with an empty `col` cell — leaving the next row's other column
untouched — and otherwise a fresh row holding the remainder in `col` and
`""` in the other column is inserted at `row+1`; on the spec's two-row
example, two consecutive splits at position 6 give exactly two rows. -/
theorem spec_c3_split_behavior :
    (∀ (doc : AlignmentDocument) (row col pos : Nat), row < doc.row_count →
      0 < pos → pos < (doc.getCellD row col).length →
      (((mkSplitCommand doc row col pos).redo doc).2.getCellD row col =
          (doc.getCellD row col).take pos) ∧
      (row + 1 < doc.row_count ∧ doc.getCellD (row + 1) col = "" →
        ((mkSplitCommand doc row col pos).redo doc).2.row_count = doc.row_count ∧
        ((mkSplitCommand doc row col pos).redo doc).2.getCellD (row + 1) col =
          (if startsWithSpace ((doc.getCellD row col).drop pos) then
            ((doc.getCellD row col).drop pos).drop 1 else (doc.getCellD row col).drop pos) ∧
        ((mkSplitCommand doc row col pos).redo doc).2.getCellD (row + 1) (1 - col) =
          doc.getCellD (row + 1) (1 - col)) ∧
      (¬ (row + 1 < doc.row_count ∧ doc.getCellD (row + 1) col = "") →
        ((mkSplitCommand doc row col pos).redo doc).2.row_count = doc.row_count + 1 ∧
        ((mkSplitCommand doc row col pos).redo doc).2.getCellD (row + 1) col =
          (if startsWithSpace ((doc.getCellD row col).drop pos) then
            ((doc.getCellD row col).drop pos).drop 1 else (doc.getCellD row col).drop pos) ∧
        ((mkSplitCommand doc row col pos).redo doc).2.getCellD (row + 1) (1 - col) = "")) ∧
    (let d0 : AlignmentDocument :=
      { rows := [{ source := "Hello world", target := "สวัสดีชาวโลก" }] }
    let d1 := ((mkSplitCommand d0 0 0 6).redo d0).2
    let d2 := ((mkSplitCommand d1 0 1 6).redo d1).2
    d2.row_count = 2 ∧ d2.getCellD 0 0 = "Hello " ∧ d2.getCellD 0 1 = "สวัสดี" ∧
      d2.getCellD 1 0 = "world" ∧ d2.getCellD 1 1 = "ชาวโลก") := by
  constructor
  · intro doc row col pos hrow hpos hlen
    have hrow' : row < doc.rows.length := hrow
    refine ⟨?_, ?_, ?_⟩
    · by_cases hc : row + 1 < doc.rows.length ∧ doc.getCellD (row + 1) col = ""
      · rw [split_redo_eq_filled doc row col pos hc.1 hc.2]
        simp only [mkSplitCommand]
        rw [getCellD_set_cell_other_row _ _ _ _ _ _ (by omega),
          getCellD_set_cell_same doc row col _ hrow']
      · rw [split_redo_eq_inserted doc row col pos hc]
        simp only [mkSplitCommand]
        rw [getCellD_insert_row_lt _ (row + 1) _ row _ (by omega)
            (by rw [length_set_cell]; exact hrow'),
          getCellD_set_cell_same doc row col _ hrow']
    · intro hc
      rw [split_redo_eq_filled doc row col pos hc.1 hc.2]
      simp only [mkSplitCommand]
      have hnext1 : row + 1 < (doc.set_cell row col ((doc.getCellD row col).take pos)).rows.length
        := by rw [length_set_cell]; exact hc.1
      refine ⟨by rw [row_count_set_cell, row_count_set_cell], ?_, ?_⟩
      · rw [getCellD_set_cell_same _ (row + 1) col _ hnext1]
      · have hcc : ((1 - col) = 0) ≠ (col = 0) := by
          by_cases h0 : col = 0
          · subst h0; simp
          · have h1 : 1 - col = 0 := by omega
            simp [h1, h0]
        rw [getCellD_set_cell_other_col _ (row + 1) col (1 - col) _ hcc,
          getCellD_set_cell_other_row _ _ _ _ _ _ (by omega)]
    · intro hc
      rw [split_redo_eq_inserted doc row col pos hc]
      simp only [mkSplitCommand]
      have hk : row + 1 ≤ (doc.set_cell row col ((doc.getCellD row col).take pos)).rows.length
        := by rw [length_set_cell]; omega
      refine ⟨?_, ?_, ?_⟩
      · rw [row_count_insert_row _ (row + 1) _ hk, row_count_set_cell]
      · rw [getCellD_insert_row_self _ (row + 1) _ col hk]
        by_cases h0 : col = 0 <;> simp [AlignmentRow.getCol, h0]
      · rw [getCellD_insert_row_self _ (row + 1) _ (1 - col) hk]
        by_cases h0 : col = 0 <;> simp [AlignmentRow.getCol, h0]
        · omega
  · refine ⟨by decide, by decide, by decide, by decide, by decide⟩

/-- Witness for C3 at a concrete document: split `exDocB` at `(0,0,1)`. -/
theorem spec_c3_split_behavior_witness :
    (0 < exDocB.row_count ∧ 0 < 1 ∧ 1 < (exDocB.getCellD 0 0).length) ∧
      ((mkSplitCommand exDocB 0 0 1).redo exDocB).2.getCellD 0 0 = (exDocB.getCellD 0 0).take 1 :=
  ⟨⟨by decide, by decide, by decide⟩,
    (spec_c3_split_behavior.1 exDocB 0 0 1 (by decide) (by decide) (by decide)).1⟩

theorem getCellD_remove_row_lt (doc : AlignmentDocument) (k i c : Nat) (hik : i < k) :
    (doc.remove_row k).getCellD i c = doc.getCellD i c := by
  simp only [AlignmentDocument.remove_row, AlignmentDocument.getCellD,
    List.getElem?_eraseIdx, if_pos hik]

theorem getCellD_remove_row_ge (doc : AlignmentDocument) (k i c : Nat) (hik : ¬ i < k) :
    (doc.remove_row k).getCellD i c = doc.getCellD (i + 1) c := by
  simp only [AlignmentDocument.remove_row, AlignmentDocument.getCellD,
    List.getElem?_eraseIdx, if_neg hik]

/-- C4: merging `(row, col)` with `row+1` writes `activeA + " " + activeB`
into `(row, col)` when both are non-empty and the plain concatenation
otherwise; row `row+1` is removed exactly when its other-column cell is
empty (rows above shift up), and is otherwise kept with its `col` cell
cleared and its other-column cell untouched; the spec's two concrete
examples hold. -/
theorem spec_c4_merge_behavior :
    (∀ (doc : AlignmentDocument) (row col : Nat), row + 1 < doc.row_count →
      (((mkMergeCommand doc row col).redo doc).2.getCellD row col =
        (if doc.getCellD row col ≠ "" ∧ doc.getCellD (row + 1) col ≠ "" then
          doc.getCellD row col ++ " " ++ doc.getCellD (row + 1) col
        else doc.getCellD row col ++ doc.getCellD (row + 1) col)) ∧
      (doc.getCellD (row + 1) (1 - col) = "" →
        ((mkMergeCommand doc row col).redo doc).2.row_count = doc.row_count - 1 ∧
        (∀ i cc, row + 1 ≤ i →
          ((mkMergeCommand doc row col).redo doc).2.getCellD i cc = doc.getCellD (i + 1) cc)) ∧
      (doc.getCellD (row + 1) (1 - col) ≠ "" →
        ((mkMergeCommand doc row col).redo doc).2.row_count = doc.row_count ∧
        ((mkMergeCommand doc row col).redo doc).2.getCellD (row + 1) col = "" ∧
        ((mkMergeCommand doc row col).redo doc).2.getCellD (row + 1) (1 - col) =
          doc.getCellD (row + 1) (1 - col))) ∧
    (let m0 : AlignmentDocument := { rows := [{ source := "Part A", target := "Thai A" },
      { source := "Part B", target := "Thai B" }] }
    let r0 := ((mkMergeCommand m0 0 0).redo m0).2
    r0.row_count = 2 ∧ r0.getCellD 0 0 = "Part A Part B" ∧ r0.getCellD 0 1 = "Thai A" ∧
      r0.getCellD 1 0 = "" ∧ r0.getCellD 1 1 = "Thai B") ∧
    (let m1 : AlignmentDocument := { rows := [{ source := "Part A", target := "Thai A" },
      { source := "Part B", target := "" }] }
    let r1 := ((mkMergeCommand m1 0 0).redo m1).2
    r1.row_count = 1 ∧ r1.getCellD 0 0 = "Part A Part B" ∧ r1.getCellD 0 1 = "Thai A") := by
  refine ⟨?_, ?_, ?_⟩
  · intro doc row col hnext
    have hnext' : row + 1 < doc.rows.length := hnext
    have hrow : row < doc.rows.length := by omega
    refine ⟨?_, ?_, ?_⟩
    · by_cases hc : doc.getCellD (row + 1) (1 - col) = ""
      · rw [merge_redo_eq_removed doc row col hc]
        simp only [mkMergeCommand]
        rw [getCellD_remove_row_lt _ (row + 1) row _ (by omega),
          getCellD_set_cell_same doc row col _ hrow]
      · rw [merge_redo_eq_kept doc row col hc]
        simp only [mkMergeCommand]
        rw [getCellD_set_cell_other_row _ _ _ _ _ _ (by omega),
          getCellD_set_cell_same doc row col _ hrow]
    · intro hc
      rw [merge_redo_eq_removed doc row col hc]
      simp only [mkMergeCommand]
      constructor
      · simp only [AlignmentDocument.row_count, AlignmentDocument.remove_row,
          List.length_eraseIdx, length_set_cell]
        rw [if_pos hnext']
      · intro i cc hi
        rw [getCellD_remove_row_ge _ (row + 1) i _ (by omega),
          getCellD_set_cell_other_row _ _ _ _ _ _ (by omega)]
    · intro hc
      rw [merge_redo_eq_kept doc row col hc]
      simp only [mkMergeCommand]
      have hnext1 : row + 1 < (doc.set_cell row col
          (if doc.getCellD row col ≠ "" ∧ doc.getCellD (row + 1) col ≠ "" then
            doc.getCellD row col ++ " " ++ doc.getCellD (row + 1) col
          else doc.getCellD row col ++ doc.getCellD (row + 1) col)).rows.length := by
        rw [length_set_cell]; exact hnext'
      refine ⟨by rw [row_count_set_cell, row_count_set_cell], ?_, ?_⟩
      · rw [getCellD_set_cell_same _ (row + 1) col _ hnext1]
      · have hcc : ((1 - col) = 0) ≠ (col = 0) := by
          by_cases h0 : col = 0
          · subst h0; simp
          · have h1 : 1 - col = 0 := by omega
            simp [h1, h0]
        rw [getCellD_set_cell_other_col _ (row + 1) col (1 - col) _ hcc,
          getCellD_set_cell_other_row _ _ _ _ _ _ (by omega)]
  · exact ⟨by decide, by decide, by decide, by decide, by decide⟩
  · exact ⟨by decide, by decide, by decide⟩

/-- Witness for C4 at a concrete document: merge `exDocB` at `(0,0)`. -/
theorem spec_c4_merge_behavior_witness :
    (0 + 1 < exDocB.row_count) ∧
      ((mkMergeCommand exDocB 0 0).redo exDocB).2.getCellD 0 0 =
        (if exDocB.getCellD 0 0 ≠ "" ∧ exDocB.getCellD 1 0 ≠ "" then
          exDocB.getCellD 0 0 ++ " " ++ exDocB.getCellD 1 0
        else exDocB.getCellD 0 0 ++ exDocB.getCellD 1 0) :=
  ⟨by decide, (spec_c4_merge_behavior.1 exDocB 0 0 (by decide)).1⟩

theorem map_insertIdx {α β : Type} (f : α → β) :
    ∀ (k : Nat) (l : List α) (a : α),
      (l.insertIdx k a).map f = (l.map f).insertIdx k (f a)
  | 0, l, a => by simp [List.insertIdx_zero]
  | k + 1, [], a => by simp [List.insertIdx_succ_nil]
  | k + 1, x :: l, a => by
    simp only [List.insertIdx_succ_cons, List.map_cons]
    rw [map_insertIdx f k l a]

theorem map_eraseIdx {α β : Type} (f : α → β) :
    ∀ (l : List α) (k : Nat), (l.eraseIdx k).map f = (l.map f).eraseIdx k
  | [], _ => by simp
  | x :: l, 0 => by simp [List.eraseIdx]
  | x :: l, k + 1 => by
    simp only [List.eraseIdx, List.map_cons]
    rw [map_eraseIdx f l k]

theorem colTexts_ext (d d' : AlignmentDocument) (c : Nat)
    (hlen : d.rows.length = d'.rows.length)
    (h : ∀ i, d.getCellD i c = d'.getCellD i c) : colTexts d c = colTexts d' c := by
  apply List.ext_getElem?
  intro n
  rw [colTexts, colTexts, List.getElem?_map, List.getElem?_map]
  by_cases hn : n < d.rows.length
  · have hn2 : n < d'.rows.length := by omega
    have hval := h n
    simp only [AlignmentDocument.getCellD, List.getElem?_eq_getElem hn,
      List.getElem?_eq_getElem hn2] at hval
    rw [List.getElem?_eq_getElem hn, List.getElem?_eq_getElem hn2]
    simpa using hval
  · rw [List.getElem?_eq_none (by omega), List.getElem?_eq_none (by omega)]

theorem colTexts_set_cell_other (doc : AlignmentDocument) (r c c' : Nat)
    (t : String) (hcc : (c' = 0) ≠ (c = 0)) :
    colTexts (doc.set_cell r c t) c' = colTexts doc c' := by
  apply (colTexts_ext doc _ c' (by rw [length_set_cell]) ?_).symm
  intro i
  by_cases hir : i = r
  · subst hir
    exact (getCellD_set_cell_other_col doc i c c' t hcc).symm
  · exact (getCellD_set_cell_other_row doc r c i c' t hir).symm

/-- C8: `SplitCommand`/`MergeCommand` on column `col` are column-scoped —
the sequence of `1-col` cell texts is unchanged, except that the
inserted-row branch of a split adds an empty cell at `row+1` and the
removed-row branch of a merge deletes the (empty, by that branch's
condition) cell at `row+1`; every pre-existing cell of column `1-col` is
byte-identical before and after. -/
theorem spec_c8_column_scoped :
    (∀ (doc : AlignmentDocument) (row col pos : Nat), row < doc.row_count →
      (row + 1 < doc.row_count ∧ doc.getCellD (row + 1) col = "" →
        colTexts ((mkSplitCommand doc row col pos).redo doc).2 (1 - col) =
          colTexts doc (1 - col)) ∧
      (¬ (row + 1 < doc.row_count ∧ doc.getCellD (row + 1) col = "") →
        colTexts ((mkSplitCommand doc row col pos).redo doc).2 (1 - col) =
          (colTexts doc (1 - col)).insertIdx (row + 1) "")) ∧
    (∀ (doc : AlignmentDocument) (row col : Nat), row + 1 < doc.row_count →
      (doc.getCellD (row + 1) (1 - col) ≠ "" →
        colTexts ((mkMergeCommand doc row col).redo doc).2 (1 - col) =
          colTexts doc (1 - col)) ∧
      (doc.getCellD (row + 1) (1 - col) = "" →
        colTexts ((mkMergeCommand doc row col).redo doc).2 (1 - col) =
          (colTexts doc (1 - col)).eraseIdx (row + 1) ∧
        doc.getCellD (row + 1) (1 - col) = "")) := by
  have hcc : ∀ col : Nat, ((1 - col) = 0) ≠ (col = 0) := by
    intro col
    by_cases h0 : col = 0
    · subst h0; simp
    · have h1 : 1 - col = 0 := by omega
      simp [h1, h0]
  constructor
  · intro doc row col pos hrow
    constructor
    · intro hc
      rw [split_redo_eq_filled doc row col pos hc.1 hc.2]
      simp only [mkSplitCommand]
      rw [colTexts_set_cell_other _ (row + 1) col (1 - col) _ (hcc col),
        colTexts_set_cell_other _ row col (1 - col) _ (hcc col)]
    · intro hc
      rw [split_redo_eq_inserted doc row col pos hc]
      simp only [mkSplitCommand, AlignmentDocument.insert_row, colTexts]
      rw [map_insertIdx]
      have hother := colTexts_set_cell_other doc row col (1 - col)
        ((doc.getCellD row col).take pos) (hcc col)
      simp only [colTexts] at hother
      rw [hother]
      by_cases h0 : col = 0
      · simp [h0, AlignmentRow.getCol]
      · have h1 : 1 - col = 0 := by omega
        simp [h0, h1, AlignmentRow.getCol]
  · intro doc row col hnext
    constructor
    · intro hc
      rw [merge_redo_eq_kept doc row col hc]
      simp only [mkMergeCommand]
      rw [colTexts_set_cell_other _ (row + 1) col (1 - col) _ (hcc col),
        colTexts_set_cell_other _ row col (1 - col) _ (hcc col)]
    · intro hc
      refine ⟨?_, hc⟩
      rw [merge_redo_eq_removed doc row col hc]
      simp only [mkMergeCommand, AlignmentDocument.remove_row, colTexts]
      rw [map_eraseIdx]
      have hother := colTexts_set_cell_other doc row col (1 - col)
        (if doc.getCellD row col ≠ "" ∧ doc.getCellD (row + 1) col ≠ "" then
          doc.getCellD row col ++ " " ++ doc.getCellD (row + 1) col
        else doc.getCellD row col ++ doc.getCellD (row + 1) col) (hcc col)
      simp only [colTexts] at hother
      rw [hother]

/-- Witness for C8: a split on column 0 of `exDocB` leaves column 1
unchanged (inserted-row branch). -/
theorem spec_c8_column_scoped_witness :
    (0 < exDocB.row_count ∧
      ¬ (0 + 1 < exDocB.row_count ∧ exDocB.getCellD (0 + 1) 0 = "")) ∧
      colTexts ((mkSplitCommand exDocB 0 0 1).redo exDocB).2 (1 - 0) =
        (colTexts exDocB (1 - 0)).insertIdx (0 + 1) "" :=
  ⟨⟨by decide, by decide⟩,
    ((spec_c8_column_scoped.1 exDocB 0 0 1 (by decide)).2 (by decide))⟩

/-- Counterexample to C6: `get_cell` does not raise for `col ∉ {0,1}` —
`col = 2` silently returns the target column — and a negative in-range
`row` (outside `[0, rowCount)`) also returns a value instead of failing. -/
theorem spec_c6_counterexample :
    exDocB.get_cell 0 2 = some "cd" ∧ ¬ ((2 : Int) = 0 ∨ (2 : Int) = 1) ∧
      exDocB.get_cell (-1) 0 = some "ef" := by
  refine ⟨by decide, by decide, by decide⟩

/-- C6 as amended: `get_cell(row, col)` fails with `IndexError` exactly
when `row` is outside `[-rowCount, rowCount)` (Python list indexing, a
negative row counting from the end); `col` never causes a failure —
`col = 0` returns the source text and every other `col` the target
text. -/
theorem spec_c6_get_cell_amended :
    (∀ (doc : AlignmentDocument) (row col : Int),
      ((doc.get_cell row col).isSome = true ↔
        (-(doc.row_count : Int) ≤ row ∧ row < (doc.row_count : Int)))) ∧
    (∀ (doc : AlignmentDocument) (row col : Int) (r : AlignmentRow),
      0 ≤ row → doc.rows[row.toNat]? = some r →
      doc.get_cell row col = some (if col = 0 then r.source else r.target)) ∧
    (∀ (doc : AlignmentDocument) (row col : Int) (r : AlignmentRow),
      row < 0 → 0 ≤ row + (doc.row_count : Int) →
      doc.rows[(row + (doc.row_count : Int)).toNat]? = some r →
      doc.get_cell row col = some (if col = 0 then r.source else r.target)) := by
  have hcount : ∀ doc : AlignmentDocument, (doc.row_count : Int) = (doc.rows.length : Int) :=
    fun _ => rfl
  refine ⟨?_, ?_, ?_⟩
  · intro doc row col
    rw [hcount doc]
    simp only [AlignmentDocument.get_cell, pyListGet, Option.isSome_map]
    by_cases hneg : row < 0
    · rw [if_pos hneg]
      by_cases hb : 0 ≤ row + (doc.rows.length : Int) ∧
          row + (doc.rows.length : Int) < (doc.rows.length : Int)
      · rw [if_pos hb]
        have hlt : (row + (doc.rows.length : Int)).toNat < doc.rows.length := by omega
        rw [List.getElem?_eq_getElem hlt]
        constructor
        · intro
          omega
        · intro
          rfl
      · rw [if_neg hb]
        constructor
        · intro h
          exact absurd h (by simp)
        · intro h
          exact absurd h (by omega)
    · rw [if_neg hneg]
      by_cases hb : 0 ≤ row ∧ row < (doc.rows.length : Int)
      · rw [if_pos hb]
        have hlt : row.toNat < doc.rows.length := by omega
        rw [List.getElem?_eq_getElem hlt]
        constructor
        · intro
          omega
        · intro
          rfl
      · rw [if_neg hb]
        constructor
        · intro h
          exact absurd h (by simp)
        · intro h
          exact absurd h (by omega)
  · intro doc row col r h0 hr
    have hlt : row.toNat < doc.rows.length := by
      by_contra hcon
      rw [List.getElem?_eq_none (Nat.le_of_not_lt hcon)] at hr
      exact Option.noConfusion hr
    simp only [AlignmentDocument.get_cell, pyListGet]
    have hio : ¬ (row < 0) := by omega
    rw [if_neg hio,
      if_pos (show (0 : Int) ≤ row ∧ row < (doc.rows.length : Int) by constructor <;> omega),
      hr]
    rfl
  · intro doc row col r hneg h0 hr
    rw [hcount doc] at h0 hr
    have hlt : (row + (doc.rows.length : Int)).toNat < doc.rows.length := by
      by_contra hcon
      rw [List.getElem?_eq_none (Nat.le_of_not_lt hcon)] at hr
      exact Option.noConfusion hr
    simp only [AlignmentDocument.get_cell, pyListGet]
    rw [if_pos hneg,
      if_pos (show (0 : Int) ≤ row + (doc.rows.length : Int) ∧
        row + (doc.rows.length : Int) < (doc.rows.length : Int) by constructor <;> omega),
      hr]
    rfl

/-- Witness for the amended C6: in-range read on the example document. -/
theorem spec_c6_get_cell_amended_witness :
    ((0 : Int) ≤ 0 ∧ exDocB.rows[(0 : Int).toNat]? =
      some { source := "ab", target := "cd" }) ∧
      exDocB.get_cell 0 0 =
        some (if (0 : Int) = 0 then "ab" else "cd") :=
  ⟨⟨by decide, by rfl⟩,
    spec_c6_get_cell_amended.2.1 exDocB 0 0 { source := "ab", target := "cd" }
      (by decide) (by rfl)⟩

theorem modFlag_of_rows_set_other (doc d' : AlignmentDocument) (r : Nat) (x : AlignmentRow)
    (h : d'.rows = doc.rows.set r x) (i c : Nat) (hir : i ≠ r) :
    d'.modFlag i c = doc.modFlag i c := by
  simp only [AlignmentDocument.modFlag, h, List.getElem?_set_ne (Ne.symm hir)]

theorem set_cell_flag_monotone (doc : AlignmentDocument) (r c : Nat) (t : String) (i cc : Nat)
    (h : doc.modFlag i cc = true) : (doc.set_cell r c t).modFlag i cc = true := by
  by_cases hlt : r < doc.rows.length
  · simp only [AlignmentDocument.modFlag] at h ⊢
    rw [rows_set_cell doc r c t hlt]
    by_cases hir : i = r
    · subst hir
      rw [List.getElem?_set_self (by simpa using hlt)]
      rw [List.getElem?_eq_getElem hlt] at h
      by_cases hc : c = 0 <;> by_cases hcc2 : cc = 0 <;>
        simp_all [AlignmentRow.setCol, List.get_eq_getElem]
    · rw [List.getElem?_set_ne (Ne.symm hir)]
      exact h
  · rw [set_cell_oob doc r c t hlt]
    exact h

/-- C9: the modified flags are monotone — `set_cell` never clears a flag,
`insert_row` keeps every existing row object, `remove_row` only drops
rows — and each command whose undo restores cell text through `set_cell`
(split, merge, move, edit) leaves the restored column's flag `true`
after `do(); undo()` even though the text again equals its pre-`do`
value. -/
theorem spec_c9_modified_flags :
    (∀ (doc : AlignmentDocument) (r c : Nat) (t : String) (i cc : Nat),
      doc.modFlag i cc = true → (doc.set_cell r c t).modFlag i cc = true) ∧
    (∀ (doc : AlignmentDocument) (k : Nat) (x : AlignmentRow) (r : AlignmentRow),
      r ∈ doc.rows → r ∈ (doc.insert_row k x).rows) ∧
    (∀ (doc : AlignmentDocument) (k : Nat), (doc.remove_row k).rows.Sublist doc.rows) ∧
    (∀ (doc : AlignmentDocument) (row col pos : Nat), row < doc.row_count →
      ((((mkSplitCommand doc row col pos).redo doc).1.undo
          ((mkSplitCommand doc row col pos).redo doc).2).modFlag row col = true ∧
        (((mkSplitCommand doc row col pos).redo doc).1.undo
          ((mkSplitCommand doc row col pos).redo doc).2).getCellD row col =
          doc.getCellD row col)) ∧
    (∀ (doc : AlignmentDocument) (row col : Nat), row + 1 < doc.row_count →
      ((((mkMergeCommand doc row col).redo doc).1.undo
          ((mkMergeCommand doc row col).redo doc).2).modFlag row col = true ∧
        (((mkMergeCommand doc row col).redo doc).1.undo
          ((mkMergeCommand doc row col).redo doc).2).getCellD row col =
          doc.getCellD row col)) ∧
    (∀ (doc : AlignmentDocument) (row col : Nat) (direction : Int),
      row < doc.row_count → (direction = 1 ∨ direction = -1) →
      0 ≤ (row : Int) + direction → (row : Int) + direction < (doc.row_count : Int) →
      (let c : MoveCellCommand := { row := row, col := col, direction := direction }
      (c.undo (c.redo doc)).modFlag row col = true ∧
        (c.undo (c.redo doc)).getCellD row col = doc.getCellD row col)) ∧
    (∀ (doc : AlignmentDocument) (row col : Nat) (newText : String), row < doc.row_count →
      (let c : EditCellCommand :=
        { row := row, col := col, old := doc.getCellD row col, new := newText }
      (c.undo (c.redo doc)).modFlag row col = true ∧
        (c.undo (c.redo doc)).getCellD row col = doc.getCellD row col)) := by
  refine ⟨set_cell_flag_monotone, ?_, ?_, ?_, ?_, ?_, ?_⟩
  · intro doc k x r hr
    simp only [AlignmentDocument.insert_row]
    rcases le_or_lt k doc.rows.length with hk | hk
    · exact (List.mem_insertIdx hk).mpr (Or.inr hr)
    · rw [List.insertIdx_of_length_lt doc.rows x k hk]
      exact hr
  · intro doc k
    exact List.eraseIdx_sublist doc.rows k
  · intro doc row col pos hrow
    have hrow' : row < doc.rows.length := hrow
    constructor
    · by_cases hc : row + 1 < doc.rows.length ∧ doc.getCellD (row + 1) col = ""
      · have key := split_do_undo_filled doc row col pos hrow' hc.1 hc.2
        set d1 := withRows doc (doc.rows.set row ((doc.rows.get ⟨row, hrow'⟩).markCol col))
        have hEq : (((mkSplitCommand doc row col pos).redo doc).1.undo
            ((mkSplitCommand doc row col pos).redo doc).2).rows =
            d1.rows.set (row + 1) ((doc.rows.get ⟨row + 1, hc.1⟩).markCol col) := key
        rw [modFlag_of_rows_set_other d1 _ (row + 1) _ hEq row col (by omega)]
        exact modFlag_of_rows_set_markCol doc d1 row col _
          (get_eq_some_of_lt doc.rows row hrow') rfl
      · have key := split_do_undo_inserted doc row col pos hrow' hc
        exact modFlag_of_rows_set_markCol doc _ row col _
          (get_eq_some_of_lt doc.rows row hrow') key
    · exact (split_do_undo_preserves doc row col pos hrow').2 row col
  · intro doc row col hnext
    have hnext' : row + 1 < doc.rows.length := hnext
    have hrow' : row < doc.rows.length := by omega
    constructor
    · by_cases hc : doc.getCellD (row + 1) (1 - col) = ""
      · have key := merge_do_undo_removed doc row col hrow' hnext' hc
        exact modFlag_of_rows_set_markCol doc _ row col _
          (get_eq_some_of_lt doc.rows row hrow') key
      · have key := merge_do_undo_kept doc row col hrow' hnext' hc
        set d1 := withRows doc (doc.rows.set row ((doc.rows.get ⟨row, hrow'⟩).markCol col))
        have hEq : (((mkMergeCommand doc row col).redo doc).1.undo
            ((mkMergeCommand doc row col).redo doc).2).rows =
            d1.rows.set (row + 1) ((doc.rows.get ⟨row + 1, hnext'⟩).markCol col) := key
        rw [modFlag_of_rows_set_other d1 _ (row + 1) _ hEq row col (by omega)]
        exact modFlag_of_rows_set_markCol doc d1 row col _
          (get_eq_some_of_lt doc.rows row hrow') rfl
    · exact (merge_do_undo_preserves doc row col hnext').2 row col
  · intro doc row col direction hrow hdir h0 h1
    have hrow' : row < doc.rows.length := hrow
    have htgt : ((row : Int) + direction).toNat < doc.rows.length := by
      have : (doc.row_count : Int) = (doc.rows.length : Int) := rfl
      omega
    have hne : ((row : Int) + direction).toNat ≠ row := by
      rcases hdir with h | h <;> subst h <;> omega
    have key := move_do_undo doc row col direction hrow' htgt hne
    simp only at key
    constructor
    · set d1 := withRows doc (doc.rows.set row ((doc.rows.get ⟨row, hrow'⟩).markCol col))
      have hEq : (MoveCellCommand.undo { row := row, col := col, direction := direction }
          (MoveCellCommand.redo { row := row, col := col, direction := direction } doc)).rows =
          d1.rows.set (((row : Int) + direction).toNat)
            ((doc.rows.get ⟨((row : Int) + direction).toNat, htgt⟩).markCol col) := key
      rw [modFlag_of_rows_set_other d1 _ (((row : Int) + direction).toNat) _ hEq row col
        (Ne.symm hne)]
      exact modFlag_of_rows_set_markCol doc d1 row col _
        (get_eq_some_of_lt doc.rows row hrow') rfl
    · exact (move_do_undo_preserves doc row col direction hrow' htgt hne).2 row col
  · intro doc row col newText hrow
    have hrow' : row < doc.rows.length := hrow
    have key := edit_do_undo doc row col (doc.getCellD row col) newText hrow' rfl
    simp only at key
    constructor
    · exact modFlag_of_rows_set_markCol doc _ row col _
        (get_eq_some_of_lt doc.rows row hrow') key
    · exact (edit_do_undo_preserves doc row col newText hrow').2 row col

/-- Witness for C9: on the example document an edit that changes nothing
still leaves the source-modified flag set after undo. -/
theorem spec_c9_modified_flags_witness :
    (0 < exDocB.row_count) ∧
      (let c : EditCellCommand :=
        { row := 0, col := 0, old := exDocB.getCellD 0 0, new := "zz" }
      (c.undo (c.redo exDocB)).modFlag 0 0 = true ∧
        (c.undo (c.redo exDocB)).getCellD 0 0 = exDocB.getCellD 0 0) :=
  ⟨by decide, spec_c9_modified_flags.2.2.2.2.2.2 exDocB 0 0 "zz" (by decide)⟩

theorem bump_lookup_same : ∀ (c : List (String × Nat)) (k : String),
    List.lookup k (bump c k) = some (((List.lookup k c).getD 0) + 1)
  | [], k => by simp [bump, List.lookup]
  | (k', n) :: rest, k => by
    by_cases h : k' = k
    · subst h
      simp [bump, List.lookup]
    · have hb : (k == k') = false := beq_false_of_ne (Ne.symm h)
      simp only [bump, if_neg h, List.lookup, hb]
      exact bump_lookup_same rest k

theorem bump_lookup_ne : ∀ (c : List (String × Nat)) (k k' : String), k' ≠ k →
    List.lookup k' (bump c k) = List.lookup k' c
  | [], k, k', h => by
    have hb : (k' == k) = false := beq_false_of_ne h
    simp [bump, List.lookup, hb]
  | (k0, n) :: rest, k, k', h => by
    by_cases h0 : k0 = k
    · subst h0
      have hb : (k' == k0) = false := beq_false_of_ne h
      simp [bump, List.lookup, hb]
    · simp only [bump, if_neg h0, List.lookup]
      by_cases h1 : k' = k0
      · subst h1
        simp
      · have hb : (k' == k0) = false := beq_false_of_ne h1
        simp only [hb]
        exact bump_lookup_ne rest k k' h

theorem mem_bump (c : List (String × Nat)) (k : String) :
    ∀ y : String × Nat, y ∈ bump c k → y ∈ c ∨ y.1 = k := by
  induction c with
  | nil =>
    intro y hy
    simp only [bump, List.mem_singleton] at hy
    exact Or.inr (by rw [hy])
  | cons p rest ih =>
    intro y hy
    obtain ⟨k', n⟩ := p
    by_cases h : k' = k
    · subst h
      simp only [bump, if_pos rfl] at hy
      rcases List.mem_cons.mp hy with hy | hy
      · exact Or.inr (by rw [hy])
      · exact Or.inl (List.mem_cons_of_mem _ hy)
    · simp only [bump, if_neg h] at hy
      rcases List.mem_cons.mp hy with hy | hy
      · exact Or.inl (by rw [hy]; exact List.mem_cons_self _ _)
      · rcases ih y hy with h2 | h2
        · exact Or.inl (List.mem_cons_of_mem _ h2)
        · exact Or.inr h2

theorem lookup_foldl_bump : ∀ (l : List String) (acc : List (String × Nat)) (k : String),
    List.lookup k (l.foldl bump acc) =
      match List.lookup k acc with
      | some n => some (n + l.count k)
      | none => if k ∈ l then some (l.count k) else none
  | [], acc, k => by
    cases h : List.lookup k acc <;> simp [h]
  | x :: l, acc, k => by
    rw [List.foldl_cons, lookup_foldl_bump l (bump acc x) k]
    by_cases hkx : k = x
    · subst hkx
      rw [bump_lookup_same acc k]
      cases h : List.lookup k acc
      · simp [h, List.count_cons]
        omega
      · simp [h, List.count_cons]
        omega
    · rw [bump_lookup_ne acc x k hkx]
      have hb : (k == x) = false := beq_false_of_ne hkx
      cases h : List.lookup k acc
      · simp only [h]
        have hc : (x :: l).count k = l.count k := by
          simp [List.count_cons, hb, Ne.symm hkx]
        have hm : (k ∈ x :: l) ↔ (k ∈ l) := by
          simp [List.mem_cons, hkx]
        rw [hc]
        by_cases hin : k ∈ l
        · rw [if_pos hin, if_pos (hm.mpr hin)]
        · rw [if_neg hin, if_neg (fun hx => hin (hm.mp hx))]
      · simp only [h]
        have hc : (x :: l).count k = l.count k := by
          simp [List.count_cons, hb, Ne.symm hkx]
        rw [hc]

theorem lookup_counterOf (l : List String) (k : String) :
    List.lookup k (counterOf l) = if k ∈ l then some (l.count k) else none := by
  rw [counterOf, lookup_foldl_bump l [] k]
  rfl

theorem mem_counterOf_keys : ∀ (l : List String) (y : String × Nat), y ∈ counterOf l → y.1 ∈ l := by
  have aux : ∀ (l : List String) (acc : List (String × Nat)) (y : String × Nat),
      y ∈ l.foldl bump acc → y ∈ acc ∨ y.1 ∈ l := by
    intro l
    induction l with
    | nil =>
      intro acc y hy
      exact Or.inl hy
    | cons x l ih =>
      intro acc y hy
      rw [List.foldl_cons] at hy
      rcases ih (bump acc x) y hy with h | h
      · rcases mem_bump acc x y h with h2 | h2
        · exact Or.inl h2
        · right
          rw [h2]
          exact List.mem_cons_self _ _
      · right
        exact List.mem_cons_of_mem _ h
  intro l y hy
  rcases aux l [] y hy with h | h
  · exact absurd h (List.not_mem_nil y)
  · exact h

theorem mem_insertByCountDesc (x : String × Nat) :
    ∀ (l : List (String × Nat)) (y : String × Nat),
      y ∈ insertByCountDesc x l ↔ y = x ∨ y ∈ l
  | [], y => by simp [insertByCountDesc]
  | z :: l, y => by
    simp only [insertByCountDesc]
    by_cases h : x.2 > z.2
    · rw [if_pos h]
      simp only [List.mem_cons]
    · rw [if_neg h]
      simp only [List.mem_cons, mem_insertByCountDesc x l y]
      tauto

theorem mem_mostCommon (c : List (String × Nat)) (y : String × Nat) :
    y ∈ mostCommon c ↔ y ∈ c := by
  have aux : ∀ (c : List (String × Nat)) (acc : List (String × Nat)) (y : String × Nat),
      y ∈ c.foldl (fun acc x => insertByCountDesc x acc) acc ↔ y ∈ acc ∨ y ∈ c := by
    intro c
    induction c with
    | nil =>
      intro acc y
      simp
    | cons x c ih =>
      intro acc y
      rw [List.foldl_cons, ih (insertByCountDesc x acc) y, mem_insertByCountDesc x acc y]
      simp [List.mem_cons]
      tauto
  rw [mostCommon, aux c [] y]
  simp

theorem pairwise_insertByCountDesc (x : String × Nat) :
    ∀ (l : List (String × Nat)),
      l.Pairwise (fun a b => b.2 ≤ a.2) →
      (insertByCountDesc x l).Pairwise (fun a b => b.2 ≤ a.2)
  | [], _ => by simp [insertByCountDesc]
  | z :: l, hp => by
    simp only [insertByCountDesc]
    rcases List.pairwise_cons.mp hp with ⟨hz, hl⟩
    by_cases h : x.2 > z.2
    · rw [if_pos h]
      refine List.pairwise_cons.mpr ⟨?_, hp⟩
      intro y hy
      rcases List.mem_cons.mp hy with hy | hy
      · rw [hy]
        omega
      · have := hz y hy
        omega
    · rw [if_neg h]
      refine List.pairwise_cons.mpr ⟨?_, pairwise_insertByCountDesc x l hl⟩
      intro y hy
      rcases (mem_insertByCountDesc x l y).mp hy with hy | hy
      · rw [hy]
        omega
      · exact hz y hy

theorem pairwise_mostCommon (c : List (String × Nat)) :
    (mostCommon c).Pairwise (fun a b => b.2 ≤ a.2) := by
  have aux : ∀ (c : List (String × Nat)) (acc : List (String × Nat)),
      acc.Pairwise (fun a b => b.2 ≤ a.2) →
      (c.foldl (fun acc x => insertByCountDesc x acc) acc).Pairwise (fun a b => b.2 ≤ a.2) := by
    intro c
    induction c with
    | nil =>
      intro acc h
      exact h
    | cons x c ih =>
      intro acc h
      rw [List.foldl_cons]
      exact ih (insertByCountDesc x acc) (pairwise_insertByCountDesc x acc h)
  exact aux c [] (List.Pairwise.nil)

theorem mostCommon_ne_nil (c : List (String × Nat)) (hc : c ≠ []) : mostCommon c ≠ [] := by
  intro hnil
  rcases List.exists_mem_of_ne_nil c hc with ⟨y, hy⟩
  have := (mem_mostCommon c y).mpr hy
  rw [hnil] at this
  exact List.not_mem_nil y this

theorem head_mostCommon_max (c : List (String × Nat)) (h0 : String × Nat) (t : List (String × Nat))
    (heq : mostCommon c = h0 :: t) : h0 ∈ c ∧ ∀ y ∈ c, y.2 ≤ h0.2 := by
  constructor
  · have : h0 ∈ mostCommon c := by
      rw [heq]
      exact List.mem_cons_self _ _
    exact (mem_mostCommon c h0).mp this
  · intro y hy
    have hy' : y ∈ mostCommon c := (mem_mostCommon c y).mpr hy
    rw [heq] at hy'
    rcases List.mem_cons.mp hy' with hy' | hy'
    · rw [hy']
    · have hp := pairwise_mostCommon c
      rw [heq] at hp
      exact (List.pairwise_cons.mp hp).1 y hy'

theorem firstKeyNe_none (s : String) :
    ∀ (m : List (String × Nat)), firstKeyNe s m = none → ∀ y ∈ m, y.1 = s
  | [], _, y, hy => absurd hy (List.not_mem_nil y)
  | (k, n) :: rest, h, y, hy => by
    simp only [firstKeyNe] at h
    by_cases hk : k = s
    · rw [if_pos hk] at h
      rcases List.mem_cons.mp hy with hy | hy
      · rw [hy]
        exact hk
      · exact firstKeyNe_none s rest h y hy
    · rw [if_neg hk] at h
      exact Option.noConfusion h

theorem firstKeyNe_spec (s : String) :
    ∀ (m : List (String × Nat)), m.Pairwise (fun a b => b.2 ≤ a.2) →
      ∀ k, firstKeyNe s m = some k →
      k ≠ s ∧ ∃ n, (k, n) ∈ m ∧ ∀ y ∈ m, y.1 ≠ s → y.2 ≤ n
  | [], _, k, h => Option.noConfusion h
  | (k0, n0) :: rest, hp, k, h => by
    simp only [firstKeyNe] at h
    rcases List.pairwise_cons.mp hp with ⟨hz, hrest⟩
    by_cases hk : k0 = s
    · rw [if_pos hk] at h
      obtain ⟨hne, n, hmem, hmax⟩ := firstKeyNe_spec s rest hrest k h
      refine ⟨hne, n, List.mem_cons_of_mem _ hmem, ?_⟩
      intro y hy hys
      rcases List.mem_cons.mp hy with hy | hy
      · exfalso
        rw [hy] at hys
        exact hys hk
      · exact hmax y hy hys
    · rw [if_neg hk] at h
      have hkk : k = k0 := by
        injection h with h'
        exact h'.symm
      subst hkk
      refine ⟨hk, n0, List.mem_cons_self _ _, ?_⟩
      intro y hy _
      rcases List.mem_cons.mp hy with hy | hy
      · rw [hy]
      · exact hz y hy

theorem lookup_some_mem : ∀ (m : List (String × Nat)) (k : String) (v : Nat),
    List.lookup k m = some v → (k, v) ∈ m
  | [], _, _, h => Option.noConfusion h
  | (k0, n0) :: rest, k, v, h => by
    by_cases hk : k = k0
    · subst hk
      simp only [List.lookup, beq_self_eq_true] at h
      injection h with h'
      rw [h']
      exact List.mem_cons_self _ _
    · have hb : (k == k0) = false := beq_false_of_ne hk
      simp only [List.lookup, hb] at h
      exact List.mem_cons_of_mem _ (lookup_some_mem rest k v h)

theorem keys_bump : ∀ (c : List (String × Nat)) (k : String),
    (bump c k).map Prod.fst =
      if k ∈ c.map Prod.fst then c.map Prod.fst else c.map Prod.fst ++ [k]
  | [], k => by simp [bump]
  | (k0, n0) :: rest, k => by
    by_cases h : k0 = k
    · subst h
      simp [bump]
    · simp only [bump, if_neg h, List.map_cons]
      rw [keys_bump rest k]
      have hne : ¬ (k = k0) := fun he => h he.symm
      by_cases hm : k ∈ rest.map Prod.fst
      · rw [if_pos hm, if_pos (by simp [List.mem_cons, hm])]
      · rw [if_neg hm, if_neg (by simp [List.mem_cons, hne, hm])]
        simp

theorem nodup_keys_bump (c : List (String × Nat)) (k : String)
    (h : (c.map Prod.fst).Nodup) : ((bump c k).map Prod.fst).Nodup := by
  rw [keys_bump c k]
  by_cases hm : k ∈ c.map Prod.fst
  · rw [if_pos hm]
    exact h
  · rw [if_neg hm]
    simp [List.nodup_append, h, hm]

theorem nodup_keys_counterOf (l : List String) : ((counterOf l).map Prod.fst).Nodup := by
  have aux : ∀ (l : List String) (acc : List (String × Nat)),
      (acc.map Prod.fst).Nodup → (((l.foldl bump acc)).map Prod.fst).Nodup := by
    intro l
    induction l with
    | nil =>
      intro acc h
      exact h
    | cons x l ih =>
      intro acc h
      rw [List.foldl_cons]
      exact ih (bump acc x) (nodup_keys_bump acc x h)
  exact aux l [] (by simp)

theorem mem_lookup_of_nodup : ∀ (m : List (String × Nat)) (k : String) (v : Nat),
    (m.map Prod.fst).Nodup → (k, v) ∈ m → List.lookup k m = some v
  | [], _, _, _, h => absurd h (List.not_mem_nil _)
  | (k0, n0) :: rest, k, v, hnd, h => by
    rcases List.mem_cons.mp h with he | hm
    · injection he with h1 h2
      subst h1
      subst h2
      simp [List.lookup]
    · have hk : k ≠ k0 := by
        intro he
        subst he
        have : k ∈ rest.map Prod.fst := by
          exact List.mem_map_of_mem Prod.fst hm
        simp only [List.map_cons, List.nodup_cons] at hnd
        exact hnd.1 this
      have hb : (k == k0) = false := beq_false_of_ne hk
      simp only [List.lookup, hb]
      refine mem_lookup_of_nodup rest k v ?_ hm
      simp only [List.map_cons, List.nodup_cons] at hnd
      exact hnd.2

theorem mem_counterOf_count (l : List String) (k : String) (n : Nat)
    (h : (k, n) ∈ counterOf l) : k ∈ l ∧ n = l.count k := by
  have hl := mem_lookup_of_nodup (counterOf l) k n (nodup_keys_counterOf l) h
  rw [lookup_counterOf l k] at hl
  by_cases hm : k ∈ l
  · rw [if_pos hm] at hl
    injection hl with h'
    exact ⟨hm, h'.symm⟩
  · rw [if_neg hm] at hl
    exact Option.noConfusion hl

theorem counterOf_all_eq (l0 : String) :
    ∀ (l : List String), l ≠ [] → (∀ x ∈ l, x = l0) →
      ∃ n, counterOf l = [(l0, n)] := by
  have aux : ∀ (l : List String) (n : Nat), (∀ x ∈ l, x = l0) →
      l.foldl bump [(l0, n)] = [(l0, n + l.length)] := by
    intro l
    induction l with
    | nil =>
      intro n _
      simp
    | cons x l ih =>
      intro n hall
      have hx : x = l0 := hall x (List.mem_cons_self _ _)
      subst hx
      rw [List.foldl_cons]
      have hb : bump [(x, n)] x = [(x, n + 1)] := by simp [bump]
      rw [hb, ih (n + 1) (fun y hy => hall y (List.mem_cons_of_mem _ hy))]
      simp only [List.length_cons]
      refine congrArg (fun m => [(x, m)]) ?_
      omega
  intro l hne hall
  cases l with
  | nil => exact absurd rfl hne
  | cons x l =>
    have hx : x = l0 := hall x (List.mem_cons_self _ _)
    subst hx
    rw [counterOf, List.foldl_cons]
    have hb : bump [] x = [(x, 1)] := by simp [bump]
    rw [hb, aux l 1 (fun y hy => hall y (List.mem_cons_of_mem _ hy))]
    exact ⟨1 + l.length, rfl⟩

theorem counterOf_length_ge_two (l : List String) (a b : String)
    (ha : a ∈ l) (hb : b ∈ l) (hab : a ≠ b) : 2 ≤ (counterOf l).length := by
  have hla : List.lookup a (counterOf l) = some (l.count a) := by
    rw [lookup_counterOf, if_pos ha]
  have hlb : List.lookup b (counterOf l) = some (l.count b) := by
    rw [lookup_counterOf, if_pos hb]
  have hma := lookup_some_mem _ _ _ hla
  have hmb := lookup_some_mem _ _ _ hlb
  by_contra hlt
  push_neg at hlt
  interval_cases h : (counterOf l).length
  · rw [List.length_eq_zero] at h
    rw [h] at hma
    exact List.not_mem_nil _ hma
  · rw [List.length_eq_one] at h
    obtain ⟨y, hy⟩ := h
    rw [hy] at hma hmb
    rcases List.mem_singleton.mp hma with h1
    rcases List.mem_singleton.mp hmb with h2
    apply hab
    have : (a, l.count a).1 = (b, l.count b).1 := by rw [h1, h2]
    exact this

/-- Counterexample to C7: on `exTreeC7` the most frequent observed
language different from the source `"en"` is the empty string (from the
whitespace `lang` attribute), yet the code returns `"unknown"` — which
is not an observed language at all. -/
theorem spec_c7_counterexample :
    _detect_languages exTreeC7 = ("en", "unknown") ∧
      "" ∈ observedLangs exTreeC7 ∧ ("" : String) ≠ "en" ∧
      (∀ k ∈ observedLangs exTreeC7, k ≠ "en" → k = "") ∧
      "unknown" ∉ observedLangs exTreeC7 :=
  ⟨by decide, by decide, by decide, by decide, by decide⟩

theorem detectFrom_else (c : List (String × Nat)) (hdr : Option String)
    (hlen : ¬ c.length < 2) :
    detectFrom c hdr =
      (let src0 : String := match hdr with
        | some raw => if _normalize_lang raw = "*all*" then "" else _normalize_lang raw
        | none => ""
      let src := if src0 = "" then ((mostCommon c).headD ("", 0)).1 else src0
      let tgt0 := (firstKeyNe src (mostCommon c)).getD ""
      (src, if tgt0 = "" then "unknown" else tgt0)) := by
  simp only [detectFrom, if_neg hlen]

theorem detectFrom_src_header (c : List (String × Nat)) (raw : String)
    (hlen : ¬ c.length < 2) (hne1 : _normalize_lang raw ≠ "")
    (hne2 : _normalize_lang raw ≠ "*all*") :
    (detectFrom c (some raw)).1 = _normalize_lang raw := by
  rw [detectFrom_else _ _ hlen]
  show (if (if _normalize_lang raw = "*all*" then "" else _normalize_lang raw) = "" then
      ((mostCommon c).headD ("", 0)).1
    else (if _normalize_lang raw = "*all*" then "" else _normalize_lang raw)) =
    _normalize_lang raw
  rw [if_neg hne2, if_neg hne1]

theorem detectFrom_src_none (c : List (String × Nat)) (hlen : ¬ c.length < 2) :
    (detectFrom c none).1 = ((mostCommon c).headD ("", 0)).1 := by
  rw [detectFrom_else _ _ hlen]
  show (if ("" : String) = "" then ((mostCommon c).headD ("", 0)).1 else "") =
    ((mostCommon c).headD ("", 0)).1
  rw [if_pos rfl]

theorem detectFrom_src_degenerate (c : List (String × Nat)) (raw : String)
    (hlen : ¬ c.length < 2)
    (hdeg : _normalize_lang raw = "" ∨ _normalize_lang raw = "*all*") :
    (detectFrom c (some raw)).1 = ((mostCommon c).headD ("", 0)).1 := by
  rw [detectFrom_else _ _ hlen]
  show (if (if _normalize_lang raw = "*all*" then "" else _normalize_lang raw) = "" then
      ((mostCommon c).headD ("", 0)).1
    else (if _normalize_lang raw = "*all*" then "" else _normalize_lang raw)) =
    ((mostCommon c).headD ("", 0)).1
  rcases hdeg with h | h <;> rw [h] <;> simp

theorem detectFrom_tgt (c : List (String × Nat)) (hdr : Option String)
    (hlen : ¬ c.length < 2) :
    (detectFrom c hdr).2 =
      (if (firstKeyNe (detectFrom c hdr).1 (mostCommon c)).getD "" = "" then "unknown"
      else (firstKeyNe (detectFrom c hdr).1 (mostCommon c)).getD "") := by
  rw [detectFrom_else _ _ hlen]

/-- C7 as amended.  With no observed language the result is
`("en","th")`; with exactly one it is `(thatLang, "unknown")`.  With at
least two distinct observed languages, the source is the header's
normalized `srclang` unless the header is absent or that value
normalizes to `""` or `*all*`, in which case it is a most frequent
observed language; the target is a most frequent observed language
different from the source — unless that language is the empty string
(possible only through whitespace-only `lang` attributes), in which case
the code reports `"unknown"` instead. -/
theorem spec_c7_detect_amended :
    ∀ root : XElem,
      (observedLangs root = [] → _detect_languages root = ("en", "th")) ∧
      (∀ l0, l0 ∈ observedLangs root → (∀ x ∈ observedLangs root, x = l0) →
        _detect_languages root = (l0, "unknown")) ∧
      (∀ a b, a ∈ observedLangs root → b ∈ observedLangs root → a ≠ b →
        (∀ h, root.find "header" = some h →
          _normalize_lang ((h.getAttr "srclang").getD "") ≠ "" →
          _normalize_lang ((h.getAttr "srclang").getD "") ≠ "*all*" →
          (_detect_languages root).1 = _normalize_lang ((h.getAttr "srclang").getD "")) ∧
        ((root.find "header" = none ∨ (∃ h, root.find "header" = some h ∧
            (_normalize_lang ((h.getAttr "srclang").getD "") = "" ∨
             _normalize_lang ((h.getAttr "srclang").getD "") = "*all*"))) →
          (_detect_languages root).1 ∈ observedLangs root ∧
          (∀ k ∈ observedLangs root, (observedLangs root).count k ≤
            (observedLangs root).count (_detect_languages root).1)) ∧
        (((_detect_languages root).2 ∈ observedLangs root ∧
          (_detect_languages root).2 ≠ (_detect_languages root).1 ∧
          (∀ k ∈ observedLangs root, k ≠ (_detect_languages root).1 →
            (observedLangs root).count k ≤
              (observedLangs root).count (_detect_languages root).2)) ∨
         ((_detect_languages root).2 = "unknown" ∧ "" ∈ observedLangs root ∧
          ("" : String) ≠ (_detect_languages root).1 ∧
          (∀ k ∈ observedLangs root, k ≠ (_detect_languages root).1 →
            (observedLangs root).count k ≤ (observedLangs root).count "")))) := by
  intro root
  have hdet : _detect_languages root =
      detectFrom (counterOf (observedLangs root))
        ((root.find "header").map (fun h => (h.getAttr "srclang").getD "")) := rfl
  refine ⟨?_, ?_, ?_⟩
  · intro hnil
    rw [hdet, hnil]
    rfl
  · intro l0 hmem hall
    obtain ⟨n, hcn⟩ := counterOf_all_eq l0 (observedLangs root)
      (List.ne_nil_of_mem hmem) hall
    rw [hdet, hcn]
    rfl
  · intro a b ha hb hab
    have hlen2 : 2 ≤ (counterOf (observedLangs root)).length :=
      counterOf_length_ge_two _ a b ha hb hab
    have hlen : ¬ (counterOf (observedLangs root)).length < 2 := by omega
    have hcne : counterOf (observedLangs root) ≠ [] := by
      intro h
      rw [h] at hlen2
      simp at hlen2
    have hmne : mostCommon (counterOf (observedLangs root)) ≠ [] :=
      mostCommon_ne_nil _ hcne
    obtain ⟨h0, t, hmc⟩ : ∃ h0 t, mostCommon (counterOf (observedLangs root)) = h0 :: t := by
      cases hm : mostCommon (counterOf (observedLangs root)) with
      | nil => exact absurd hm hmne
      | cons h0 t => exact ⟨h0, t, rfl⟩
    have hmax := head_mostCommon_max _ h0 t hmc
    have hpw := pairwise_mostCommon (counterOf (observedLangs root))
    refine ⟨?_, ?_, ?_⟩
    · intro h hfind hne1 hne2
      rw [hdet, hfind]
      simp only [Option.map_some']
      exact detectFrom_src_header _ _ hlen hne1 hne2
    · intro hcase
      have hsrc : (_detect_languages root).1 = h0.1 := by
        rcases hcase with hnone | ⟨h, hfind, hdeg⟩
        · rw [hdet, hnone]
          simp only [Option.map_none']
          rw [detectFrom_src_none _ hlen, hmc]
          rfl
        · rw [hdet, hfind]
          simp only [Option.map_some']
          rw [detectFrom_src_degenerate _ _ hlen hdeg, hmc]
          rfl
      rw [hsrc]
      have h0pair : (h0.1, h0.2) ∈ counterOf (observedLangs root) := by
        rw [Prod.mk.eta]
        exact hmax.1
      have h0cnt : h0.2 = (observedLangs root).count h0.1 :=
        (mem_counterOf_count _ h0.1 h0.2 h0pair).2
      constructor
      · exact (mem_counterOf_count _ h0.1 h0.2 h0pair).1
      · intro k hk
        have hkc : (k, (observedLangs root).count k) ∈ counterOf (observedLangs root) :=
          lookup_some_mem _ _ _ (by rw [lookup_counterOf, if_pos hk])
        have hle := hmax.2 _ hkc
        simpa [h0cnt] using hle
    · have htgt : (_detect_languages root).2 =
          (if (firstKeyNe ((_detect_languages root).1)
              (mostCommon (counterOf (observedLangs root)))).getD "" = "" then "unknown"
          else (firstKeyNe ((_detect_languages root).1)
              (mostCommon (counterOf (observedLangs root)))).getD "") := by
        rw [hdet, detectFrom_tgt _ _ hlen]
      cases hfk : firstKeyNe ((_detect_languages root).1)
          (mostCommon (counterOf (observedLangs root))) with
      | none =>
        exfalso
        have hall := firstKeyNe_none _ _ hfk
        have hac : (a, (observedLangs root).count a) ∈ counterOf (observedLangs root) :=
          lookup_some_mem _ _ _ (by rw [lookup_counterOf, if_pos ha])
        have hbc : (b, (observedLangs root).count b) ∈ counterOf (observedLangs root) :=
          lookup_some_mem _ _ _ (by rw [lookup_counterOf, if_pos hb])
        have hA := hall _ ((mem_mostCommon _ _).mpr hac)
        have hB := hall _ ((mem_mostCommon _ _).mpr hbc)
        exact hab (hA.trans hB.symm)
      | some k =>
        obtain ⟨hks, n, hmem, hmaxk⟩ := firstKeyNe_spec _ _ hpw k hfk
        have hkC : (k, n) ∈ counterOf (observedLangs root) := (mem_mostCommon _ _).mp hmem
        have hkL : k ∈ observedLangs root := (mem_counterOf_count _ k n hkC).1
        have hkn : n = (observedLangs root).count k := (mem_counterOf_count _ k n hkC).2
        have hmaxL : ∀ kk ∈ observedLangs root, kk ≠ (_detect_languages root).1 →
            (observedLangs root).count kk ≤ (observedLangs root).count k := by
          intro kk hkk hkks
          have hkkc : (kk, (observedLangs root).count kk) ∈ counterOf (observedLangs root) :=
            lookup_some_mem _ _ _ (by rw [lookup_counterOf, if_pos hkk])
          have := hmaxk (kk, (observedLangs root).count kk)
            ((mem_mostCommon _ _).mpr hkkc) hkks
          omega
        rw [hfk] at htgt
        by_cases hk0 : k = ""
        · right
          subst hk0
          simp only [Option.getD_some, if_pos rfl] at htgt
          refine ⟨htgt, hkL, hks, hmaxL⟩
        · left
          simp only [Option.getD_some, if_neg hk0] at htgt
          rw [htgt]
          exact ⟨hkL, hks, hmaxL⟩

/-- Witness for the amended C7: on `exTreeC7` (no header) the detected
source is a most frequent observed language. -/
theorem spec_c7_detect_amended_witness :
    ("en" ∈ observedLangs exTreeC7 ∧ "" ∈ observedLangs exTreeC7 ∧
      ("en" : String) ≠ "") ∧
      ((_detect_languages exTreeC7).1 ∈ observedLangs exTreeC7 ∧
        (∀ k ∈ observedLangs exTreeC7, (observedLangs exTreeC7).count k ≤
          (observedLangs exTreeC7).count (_detect_languages exTreeC7).1)) :=
  ⟨⟨by decide, by decide, by decide⟩,
    ((spec_c7_detect_amended exTreeC7).2.2 "en" "" (by decide) (by decide)
      (by decide)).2.1 (Or.inl (by rfl))⟩

theorem rowFold_characterize (S T : String) :
    ∀ (tuvs : List XElem) (acc : String × String × List XElem),
      tuvs.foldl (rowStep S T) acc =
        ((match (tuvs.filter (matchesLang S)).getLast? with
          | some t => _seg_text t
          | none => acc.1),
         (match (tuvs.filter (fun t => !(matchesLang S t) && matchesLang T t)).getLast? with
          | some t => _seg_text t
          | none => acc.2.1),
         acc.2.2 ++ tuvs.filter (fun t => !(matchesLang S t) && !(matchesLang T t)))
  | [], acc => by simp
  | x :: l, acc => by
    rw [List.foldl_cons, rowFold_characterize S T l (rowStep S T acc x)]
    by_cases hS : _normalize_lang (tuvRawLang x) = S
    · have hbS : matchesLang S x = true := by
        simp [matchesLang, hS]
      have hstep : rowStep S T acc x = (_seg_text x, acc.2.1, acc.2.2) := by
        simp [rowStep, hS]
      rw [hstep]
      rw [List.filter_cons_of_pos hbS, List.filter_cons_of_neg (by simp [hbS]),
        List.filter_cons_of_neg (by simp [hbS])]
      rw [List.getLast?_cons]
      cases hfl : (l.filter (matchesLang S)).getLast? <;> simp
    · have hbS : matchesLang S x = false := by
        simp [matchesLang, hS]
      by_cases hT : _normalize_lang (tuvRawLang x) = T
      · have hbT : matchesLang T x = true := by
          simp [matchesLang, hT]
        have hstep : rowStep S T acc x = (acc.1, _seg_text x, acc.2.2) := by
          simp only [rowStep]
          rw [if_neg hS, if_pos hT]
        rw [hstep]
        rw [List.filter_cons_of_neg (by simp [hbS]),
          List.filter_cons_of_pos (by simp [hbS, hbT]),
          List.filter_cons_of_neg (by simp [hbS, hbT])]
        rw [List.getLast?_cons]
        cases hfl : (l.filter (fun t => !(matchesLang S t) && matchesLang T t)).getLast? <;> simp
      · have hbT : matchesLang T x = false := by
          simp [matchesLang, hT]
        have hstep : rowStep S T acc x = (acc.1, acc.2.1, acc.2.2 ++ [x]) := by
          simp [rowStep, hS, hT]
        rw [hstep]
        rw [List.filter_cons_of_neg (by simp [hbS]),
          List.filter_cons_of_neg (by simp [hbS, hbT]),
          List.filter_cons_of_pos (by simp [hbS, hbT])]
        simp

/-- C10: when a `tu` has several `tuv` children whose normalized
language equals the source (resp. target) language, the parsed row's
source (resp. target) text is the segment text of the last such `tuv`
in document order, and the earlier same-language `tuv`s do not end up
in the row's extra-translations list (the extras are exactly the `tuv`s
matching neither language). -/
theorem spec_c10_duplicate_tuv_last_wins :
    ∀ (S T : String) (tu : XElem),
      (∀ t, ((tu.findallTag "tuv").filter (matchesLang S)).getLast? = some t →
        (rowOfTu S T tu).source = _seg_text t) ∧
      (∀ t, ((tu.findallTag "tuv").filter
          (fun t => !(matchesLang S t) && matchesLang T t)).getLast? = some t →
        (rowOfTu S T tu).target = _seg_text t) ∧
      (rowOfTu S T tu).extra_tuvs =
        (tu.findallTag "tuv").filter
          (fun t => !(matchesLang S t) && !(matchesLang T t)) := by
  intro S T tu
  have hchar := rowFold_characterize S T (tu.findallTag "tuv") ("", "", [])
  refine ⟨?_, ?_, ?_⟩
  · intro t ht
    have : (rowOfTu S T tu).source =
        (match ((tu.findallTag "tuv").filter (matchesLang S)).getLast? with
          | some t => _seg_text t
          | none => "") := by
      simp only [rowOfTu, hchar]
    rw [this, ht]
  · intro t ht
    have : (rowOfTu S T tu).target =
        (match ((tu.findallTag "tuv").filter
            (fun t => !(matchesLang S t) && matchesLang T t)).getLast? with
          | some t => _seg_text t
          | none => "") := by
      simp only [rowOfTu, hchar]
    rw [this, ht]
  · have : (rowOfTu S T tu).extra_tuvs =
        [] ++ (tu.findallTag "tuv").filter
          (fun t => !(matchesLang S t) && !(matchesLang T t)) := by
      simp only [rowOfTu, hchar]
    rw [this]
    exact List.nil_append _

/-- Witness for C10 on a two-`tuv` tu where both `tuv`s carry the source
language: the second one's text wins and nothing lands in the extras. -/
theorem spec_c10_duplicate_tuv_last_wins_witness :
    (((XElem.mk "tu" [] "" [(XElem.mk "tuv" [("lang", "en")] ""
        [(XElem.mk "seg" [] "first" [], "")], ""),
      (XElem.mk "tuv" [("lang", "EN")] ""
        [(XElem.mk "seg" [] "second" [], "")], "")]).findallTag "tuv").filter
          (matchesLang "en")).getLast? =
      some (XElem.mk "tuv" [("lang", "EN")] "" [(XElem.mk "seg" [] "second" [], "")]) ∧
    (rowOfTu "en" "th" (XElem.mk "tu" [] "" [(XElem.mk "tuv" [("lang", "en")] ""
        [(XElem.mk "seg" [] "first" [], "")], ""),
      (XElem.mk "tuv" [("lang", "EN")] ""
        [(XElem.mk "seg" [] "second" [], "")], "")])).source = "second" :=
  ⟨by rfl,
    by
      rw [(spec_c10_duplicate_tuv_last_wins "en" "th" _).1
        (XElem.mk "tuv" [("lang", "EN")] "" [(XElem.mk "seg" [] "second" [], "")]) (by rfl)]
      rfl⟩

theorem length_pathName_add_dir (p : String) :
    (pathNameOf p).length + (pathDirPart p).length = p.length := by
  simp only [pathNameOf, pathDirPart]
  show (p.data.reverse.takeWhile (fun c => c ≠ '/')).reverse.length +
    (p.data.reverse.dropWhile (fun c => c ≠ '/')).reverse.length = p.length
  rw [List.length_reverse, List.length_reverse]
  have := List.takeWhile_append_dropWhile (p := fun c => c ≠ '/') (l := p.data.reverse)
  have hlen := congrArg List.length this
  rw [List.length_append, List.length_reverse] at hlen
  exact hlen

theorem nameSuffix_cases (name : String) :
    nameSuffix name = "" ∨
    (nameSuffix name =
        String.mk ('.' :: (name.data.reverse.takeWhile (fun c => c ≠ '.')).reverse) ∧
      name.data.reverse.dropWhile (fun c => c ≠ '.') ≠ []) := by
  simp only [nameSuffix]
  cases hdw : name.data.reverse.dropWhile (fun c => c ≠ '.') with
  | nil => exact Or.inl rfl
  | cons d before =>
    dsimp only
    by_cases hb : before = []
    · rw [if_pos hb]
      exact Or.inl rfl
    · rw [if_neg hb]
      by_cases ha : name.data.reverse.takeWhile (fun c => c ≠ '.') = []
      · rw [if_pos ha]
        exact Or.inl rfl
      · rw [if_neg ha]
        refine Or.inr ⟨rfl, ?_⟩
        simp

theorem nameSuffix_length_le (name : String) :
    (nameSuffix name).length ≤ name.length := by
  rcases nameSuffix_cases name with h | ⟨h, hne⟩
  · rw [h]
    simp
  · rw [h]
    show ('.' :: (name.data.reverse.takeWhile (fun c => c ≠ '.')).reverse).length ≤ name.length
    have hsplit := List.takeWhile_append_dropWhile
      (p := fun c => decide (c ≠ '.')) (l := name.data.reverse)
    have hlen := congrArg List.length hsplit
    rw [List.length_append, List.length_reverse] at hlen
    have hname : name.length = name.data.length := rfl
    simp only [List.length_cons, List.length_reverse]
    have hdl : 1 ≤ (name.data.reverse.dropWhile (fun c => decide (c ≠ '.'))).length := by
      cases hq : name.data.reverse.dropWhile (fun c => decide (c ≠ '.')) with
      | nil => exact absurd hq hne
      | cons a b => simp
    omega

theorem length_bakPathOf (p : String) : (bakPathOf p).length = p.length + 4 := by
  simp only [bakPathOf, pathWithSuffix, pathSuffix]
  by_cases h : nameSuffix (pathNameOf p) = ""
  · rw [if_pos h, h]
    rw [String.length_append, String.length_append]
    have := length_pathName_add_dir p
    have hbk : ("" ++ ".bak" : String).length = 4 := rfl
    rw [hbk]
    omega
  · rw [if_neg h]
    rw [String.length_append, String.length_append, String.length_append]
    have hdir := length_pathName_add_dir p
    have hle := nameSuffix_length_le (pathNameOf p)
    have htake : (String.mk ((pathNameOf p).data.take
        ((pathNameOf p).data.length - (nameSuffix (pathNameOf p)).length))).length =
        (pathNameOf p).data.length - (nameSuffix (pathNameOf p)).length := by
      show ((pathNameOf p).data.take _).length = _
      rw [List.length_take]
      omega
    have hbak : (".bak" : String).length = 4 := rfl
    have hname : (pathNameOf p).length = (pathNameOf p).data.length := rfl
    rw [htake, hbak]
    omega

theorem bakPathOf_ne (p : String) : bakPathOf p ≠ p := by
  intro h
  have := length_bakPathOf p
  rw [h] at this
  omega

theorem fsRead_fsWrite_self (fs : FS) (p c : String) : fsRead (fsWrite fs p c) p = some c := by
  simp [fsRead, fsWrite, List.lookup]

theorem fsRead_fsRemove_other (fs : FS) (p q : String) (h : q ≠ p) :
    fsRead (fsRemove fs p) q = fsRead fs q := by
  induction fs with
  | nil => rfl
  | cons e rest ih =>
    obtain ⟨k, v⟩ := e
    by_cases hk : k = p
    · subst hk
      have hb : (q == k) = false := beq_false_of_ne h
      simp only [fsRemove, List.filter]
      rw [show (decide (¬ (k, v).1 = k)) = false by simp]
      simp only [fsRead, List.lookup, hb] at ih ⊢
      exact ih
    · simp only [fsRemove, List.filter]
      rw [show (decide (¬ (k, v).1 = p)) = true by simp [hk]]
      simp only [fsRead, List.lookup] at ih ⊢
      cases hqk : (q == k)
      · simp only []
        exact ih
      · rfl

theorem fsRead_fsWrite_other (fs : FS) (p q c : String) (h : q ≠ p) :
    fsRead (fsWrite fs p c) q = fsRead fs q := by
  have hb : (q == p) = false := beq_false_of_ne h
  simp only [fsWrite, fsRead, List.lookup, hb]
  exact fsRead_fsRemove_other fs p q h

theorem fsRemove_eq_self (fs : FS) (p : String) (h : fsRead fs p = none) :
    fsRemove fs p = fs := by
  induction fs with
  | nil => rfl
  | cons e rest ih =>
    obtain ⟨k, v⟩ := e
    simp only [fsRead, List.lookup] at h
    cases hpk : (p == k) with
    | true =>
      rw [hpk] at h
      exact Option.noConfusion h
    | false =>
      rw [hpk] at h
      have hk : k ≠ p := by
        intro he
        rw [he] at hpk
        simp at hpk
      simp only [fsRemove, List.filter]
      rw [show (decide (¬ (k, v).1 = p)) = true by simp [hk]]
      have := ih h
      simp only [fsRemove] at this
      rw [this]

theorem fsRemove_fsWrite (fs : FS) (p c : String) :
    fsRemove (fsWrite fs p c) p = fsRemove fs p := by
  simp only [fsWrite, fsRemove, List.filter]
  rw [show (decide (¬ (p, c).1 = p)) = false by simp]
  show List.filter (fun e => decide (e.1 ≠ p)) (List.filter (fun e => decide (e.1 ≠ p)) fs) =
    List.filter (fun e => decide (e.1 ≠ p)) fs
  rw [List.filter_filter]
  congr 1
  funext e
  rw [Bool.and_self]

theorem fsRemove_comm (fs : FS) (p q : String) :
    fsRemove (fsRemove fs p) q = fsRemove (fsRemove fs q) p := by
  simp only [fsRemove, List.filter_filter]
  congr 1
  funext e
  rw [Bool.and_comm]

theorem fsRemove_double_write (fs : FS) (tmpPath bytes : String)
    (h1 : fsRead fs tmpPath = none) :
    fsRemove (fsWrite (fsWrite fs tmpPath "") tmpPath bytes) tmpPath = fs := by
  rw [fsRemove_fsWrite, fsRemove_fsWrite]
  exact fsRemove_eq_self fs tmpPath h1

/-- C5: the writer serializes to a fresh temporary file and renames it
over the destination; with `backup` requested and an existing
destination, the old content is first copied to the `.bak`-suffixed
sibling (suffix appended, `foo.tmx → foo.tmx.bak`); a failure while
writing the temporary file (and likewise while copying the backup)
removes the temporary file, propagates the error, and leaves the whole
store — in particular the destination's prior content — unchanged. -/
theorem spec_c5_atomic_write :
    (∀ (fs : FS) (path bytes : String) (backup : Bool) (tmpPath : String) (copyFails : Bool),
      fsRead fs tmpPath = none → tmpPath ≠ path → tmpPath ≠ bakPathOf path →
      (write_tmx_fs fs path bytes backup tmpPath true copyFails = .ioError fs) ∧
      (backup = true → fsExists fs path = true →
        write_tmx_fs fs path bytes backup tmpPath false true = .ioError fs) ∧
      (backup = true → fsExists fs path = true →
        ∃ fs', write_tmx_fs fs path bytes backup tmpPath false false = .ok fs' ∧
          fsRead fs' path = some bytes ∧
          fsRead fs' (bakPathOf path) = fsRead fs path ∧
          fsRead fs' tmpPath = none) ∧
      ((backup = false ∨ fsExists fs path = false) →
        ∃ fs', write_tmx_fs fs path bytes backup tmpPath false copyFails = .ok fs' ∧
          fsRead fs' path = some bytes ∧
          fsRead fs' (bakPathOf path) = fsRead fs (bakPathOf path) ∧
          fsRead fs' tmpPath = none)) ∧
    bakPathOf "foo.tmx" = "foo.tmx.bak" ∧ bakPathOf "/docs/foo.tmx" = "/docs/foo.tmx.bak" ∧
    bakPathOf "noext" = "noext.bak" := by
  refine ⟨?_, by rfl, by rfl, by rfl⟩
  intro fs path bytes backup tmpPath copyFails h1 h2 h3
  have hbne : bakPathOf path ≠ path := bakPathOf_ne path
  have hrd2 : fsRead (fsWrite (fsWrite fs tmpPath "") tmpPath bytes) path = fsRead fs path := by
    rw [fsRead_fsWrite_other _ _ _ _ (Ne.symm h2), fsRead_fsWrite_other _ _ _ _ (Ne.symm h2)]
  have hex2 : fsExists (fsWrite (fsWrite fs tmpPath "") tmpPath bytes) path =
      fsExists fs path := by
    simp only [fsExists, hrd2]
  have hrm2 := fsRemove_double_write fs tmpPath bytes h1
  refine ⟨?_, ?_, ?_, ?_⟩
  · simp only [write_tmx_fs, if_true]
    rw [fsRemove_fsWrite]
    rw [fsRemove_eq_self fs tmpPath h1]
  · intro hb hex
    subst hb
    simp only [write_tmx_fs, Bool.false_eq_true, if_false, hex2, hex, Bool.true_and, if_true]
    rw [hrm2]
  · intro hb hex
    subst hb
    simp only [write_tmx_fs, Bool.false_eq_true, if_false, hex2, hex, Bool.true_and, if_true]
    obtain ⟨ov, hov⟩ : ∃ v, fsRead fs path = some v := by
      cases ho : fsRead fs path with
      | none =>
        exfalso
        rw [fsExists, ho] at hex
        simp at hex
      | some v => exact ⟨v, rfl⟩
    refine ⟨_, rfl, ?_, ?_, ?_⟩
    · have hstep : fsRemove (fsWrite (fsWrite (fsWrite fs tmpPath "") tmpPath bytes)
          (bakPathOf path) ((fsRead (fsWrite (fsWrite fs tmpPath "") tmpPath bytes)
            path).getD "")) tmpPath =
          fsWrite fs (bakPathOf path) ov := by
        rw [hrd2, hov]
        show fsRemove ((bakPathOf path, ov) ::
          fsRemove (fsWrite (fsWrite fs tmpPath "") tmpPath bytes) (bakPathOf path)) tmpPath =
          (bakPathOf path, ov) :: fsRemove fs (bakPathOf path)
        simp only [fsRemove, List.filter]
        rw [show (decide (¬ ((bakPathOf path, ov) : String × String).1 = tmpPath)) = true
          by simp [h3.symm]]
        show ((bakPathOf path, ov) :: fsRemove (fsRemove (fsWrite (fsWrite fs tmpPath "")
          tmpPath bytes) (bakPathOf path)) tmpPath) = _
        rw [fsRemove_comm, hrm2]
        rfl
      rw [hstep, fsRead_fsWrite_self]
    · have hstep : fsRemove (fsWrite (fsWrite (fsWrite fs tmpPath "") tmpPath bytes)
          (bakPathOf path) ((fsRead (fsWrite (fsWrite fs tmpPath "") tmpPath bytes)
            path).getD "")) tmpPath =
          fsWrite fs (bakPathOf path) ov := by
        rw [hrd2, hov]
        show fsRemove ((bakPathOf path, ov) ::
          fsRemove (fsWrite (fsWrite fs tmpPath "") tmpPath bytes) (bakPathOf path)) tmpPath =
          (bakPathOf path, ov) :: fsRemove fs (bakPathOf path)
        simp only [fsRemove, List.filter]
        rw [show (decide (¬ ((bakPathOf path, ov) : String × String).1 = tmpPath)) = true
          by simp [h3.symm]]
        show ((bakPathOf path, ov) :: fsRemove (fsRemove (fsWrite (fsWrite fs tmpPath "")
          tmpPath bytes) (bakPathOf path)) tmpPath) = _
        rw [fsRemove_comm, hrm2]
        rfl
      rw [hstep, fsRead_fsWrite_other _ _ _ _ hbne, fsRead_fsWrite_self, hov]
    · have hstep : fsRemove (fsWrite (fsWrite (fsWrite fs tmpPath "") tmpPath bytes)
          (bakPathOf path) ((fsRead (fsWrite (fsWrite fs tmpPath "") tmpPath bytes)
            path).getD "")) tmpPath =
          fsWrite fs (bakPathOf path) ov := by
        rw [hrd2, hov]
        show fsRemove ((bakPathOf path, ov) ::
          fsRemove (fsWrite (fsWrite fs tmpPath "") tmpPath bytes) (bakPathOf path)) tmpPath =
          (bakPathOf path, ov) :: fsRemove fs (bakPathOf path)
        simp only [fsRemove, List.filter]
        rw [show (decide (¬ ((bakPathOf path, ov) : String × String).1 = tmpPath)) = true
          by simp [h3.symm]]
        show ((bakPathOf path, ov) :: fsRemove (fsRemove (fsWrite (fsWrite fs tmpPath "")
          tmpPath bytes) (bakPathOf path)) tmpPath) = _
        rw [fsRemove_comm, hrm2]
        rfl
      rw [hstep, fsRead_fsWrite_other _ _ _ _ h2, fsRead_fsWrite_other _ _ _ _ h3, h1]
  · intro hcase
    have hcond : (backup && fsExists (fsWrite (fsWrite fs tmpPath "") tmpPath bytes) path)
        = false := by
      rw [hex2]
      rcases hcase with h | h <;> simp [h]
    simp only [write_tmx_fs, Bool.false_eq_true, if_false, hcond]
    refine ⟨_, rfl, ?_, ?_, ?_⟩
    · rw [hrm2, fsRead_fsWrite_self]
    · rw [hrm2, fsRead_fsWrite_other _ _ _ _ hbne]
    · rw [hrm2, fsRead_fsWrite_other _ _ _ _ h2, h1]

/-- Witness for C5: a simulated failure while writing the temporary file
leaves the one-file store untouched and reports the error. -/
theorem spec_c5_atomic_write_witness :
    (fsRead [("foo.tmx", "OLD")] "tmp.t" = none ∧ ("tmp.t" : String) ≠ "foo.tmx" ∧
      ("tmp.t" : String) ≠ bakPathOf "foo.tmx") ∧
      write_tmx_fs [("foo.tmx", "OLD")] "foo.tmx" "NEW" true "tmp.t" true false =
        .ioError [("foo.tmx", "OLD")] :=
  ⟨⟨by rfl, by decide, by decide⟩,
    ((spec_c5_atomic_write.1 [("foo.tmx", "OLD")] "foo.tmx" "NEW" true "tmp.t" false
      (by rfl) (by decide) (by decide)).1)⟩

theorem toNat_toLower_of_upper (c : Char) (h : c.toNat ≥ 65 ∧ c.toNat ≤ 90) :
    (Char.toLower c).toNat = c.toNat + 32 := by
  unfold Char.toLower
  rw [if_pos h]
  have hv : (c.toNat + 32).isValidChar := by
    constructor
    omega
  unfold Char.ofNat
  rw [dif_pos hv]
  rfl

theorem toLower_of_not_upper (c : Char) (h : ¬ (c.toNat ≥ 65 ∧ c.toNat ≤ 90)) :
    Char.toLower c = c := by
  unfold Char.toLower
  rw [if_neg h]

theorem toLower_idem (c : Char) : Char.toLower (Char.toLower c) = Char.toLower c := by
  by_cases h : c.toNat ≥ 65 ∧ c.toNat ≤ 90
  · have hn := toNat_toLower_of_upper c h
    apply toLower_of_not_upper
    omega
  · rw [toLower_of_not_upper c h]
    exact toLower_of_not_upper c h

theorem eq_char_iff_toNat (c d : Char) : c = d ↔ c.toNat = d.toNat := by
  constructor
  · intro h
    rw [h]
  · intro h
    have := congrArg Char.ofNat h
    rwa [Char.ofNat_toNat, Char.ofNat_toNat] at this

theorem isWhitespace_iff (c : Char) :
    c.isWhitespace = true ↔ (c.toNat = 32 ∨ c.toNat = 9 ∨ c.toNat = 13 ∨ c.toNat = 10) := by
  simp only [Char.isWhitespace, Bool.or_eq_true, decide_eq_true_eq]
  rw [eq_char_iff_toNat c ' ', eq_char_iff_toNat c '\t',
    eq_char_iff_toNat c '\x0d', eq_char_iff_toNat c '\n']
  show ((c.toNat = 32 ∨ c.toNat = 9) ∨ c.toNat = 13) ∨ c.toNat = 10 ↔
    c.toNat = 32 ∨ c.toNat = 9 ∨ c.toNat = 13 ∨ c.toNat = 10
  tauto

theorem isWhitespace_toLower (c : Char) :
    (Char.toLower c).isWhitespace = c.isWhitespace := by
  by_cases h : c.toNat ≥ 65 ∧ c.toNat ≤ 90
  · have hn := toNat_toLower_of_upper c h
    have h1 : (Char.toLower c).isWhitespace = false := by
      rw [← Bool.not_eq_true, isWhitespace_iff, hn]
      omega
    have h2 : c.isWhitespace = false := by
      rw [← Bool.not_eq_true, isWhitespace_iff]
      omega
    rw [h1, h2]
  · rw [toLower_of_not_upper c h]

theorem dropWhile_self_dropWhile (p : Char → Bool) (l : List Char) :
    List.dropWhile p (List.dropWhile p l) = List.dropWhile p l := by
  rw [List.dropWhile_eq_self_iff]
  intro hl
  have h := List.dropWhile_get_zero_not p l hl
  simpa using h

theorem dropWhile_head_false (p : Char → Bool) (a : Char) (l : List Char)
    (h : List.dropWhile p (a :: l) = a :: l) : p a = false := by
  rw [List.dropWhile_cons] at h
  by_cases hp : p a = true
  · rw [if_pos hp] at h
    have hlen : (List.dropWhile p l).length ≤ l.length := (List.dropWhile_suffix p).length_le
    rw [h] at hlen
    simp at hlen
  · simpa using hp

theorem dropWhile_eq_self_of_prefix (p : Char → Bool) (l₁ l₂ : List Char)
    (h1 : l₁ <+: l₂) (h2 : List.dropWhile p l₂ = l₂) : List.dropWhile p l₁ = l₁ := by
  obtain ⟨t, ht⟩ := h1
  cases l₁ with
  | nil => rfl
  | cons a l' =>
    rw [← ht] at h2
    have hpa : p a = false := dropWhile_head_false p a (l' ++ t) h2
    rw [List.dropWhile_cons, hpa]
    simp

theorem stripChars_idem (l : List Char) : stripChars (stripChars l) = stripChars l := by
  have hy : List.dropWhile Char.isWhitespace (l.dropWhile Char.isWhitespace) =
      l.dropWhile Char.isWhitespace := dropWhile_self_dropWhile _ l
  have hzpre : stripChars l <+: l.dropWhile Char.isWhitespace := by
    rw [← List.reverse_suffix]
    unfold stripChars
    rw [List.reverse_reverse]
    exact List.dropWhile_suffix _
  have h1 : List.dropWhile Char.isWhitespace (stripChars l) = stripChars l :=
    dropWhile_eq_self_of_prefix _ _ _ hzpre hy
  have h2 : List.dropWhile Char.isWhitespace (stripChars l).reverse = (stripChars l).reverse := by
    show List.dropWhile Char.isWhitespace
      (((l.dropWhile Char.isWhitespace).reverse.dropWhile Char.isWhitespace).reverse).reverse = _
    rw [List.reverse_reverse, dropWhile_self_dropWhile, ← List.reverse_reverse
      ((l.dropWhile Char.isWhitespace).reverse.dropWhile Char.isWhitespace)]
    rfl
  unfold stripChars
  rw [show stripChars l = ((l.dropWhile Char.isWhitespace).reverse.dropWhile
      Char.isWhitespace).reverse from rfl] at h1 h2
  rw [h1, h2, List.reverse_reverse]

theorem dropWhile_map_pres (f : Char → Char) (p : Char → Bool) (hp : ∀ c, p (f c) = p c)
    (l : List Char) : List.dropWhile p (l.map f) = (List.dropWhile p l).map f := by
  induction l with
  | nil => rfl
  | cons a l ih =>
    rw [List.map_cons, List.dropWhile_cons, List.dropWhile_cons, hp a]
    by_cases h : p a = true
    · rw [if_pos h, if_pos h, ih]
    · rw [if_neg h, if_neg h, List.map_cons]

theorem stripChars_map_pres (f : Char → Char) (hp : ∀ c, (f c).isWhitespace = c.isWhitespace)
    (l : List Char) : stripChars (l.map f) = (stripChars l).map f := by
  unfold stripChars
  rw [dropWhile_map_pres f _ hp, ← List.map_reverse, dropWhile_map_pres f _ hp, ← List.map_reverse]

theorem norm_lang_idem (s : String) : _normalize_lang (_normalize_lang s) = _normalize_lang s := by
  show String.mk ((stripChars ((stripChars s.data).map Char.toLower)).map Char.toLower) = _
  rw [stripChars_map_pres Char.toLower isWhitespace_toLower, stripChars_idem, List.map_map]
  show String.mk ((stripChars s.data).map (fun c => Char.toLower (Char.toLower c))) = _
  rw [List.map_congr_left (fun a _ => toLower_idem a)]
  rfl

theorem detectFrom_stable (c : List (String × Nat)) (hdr : Option String)
    (hkeys : ∀ y : String × Nat, y ∈ c → _normalize_lang y.1 = y.1) :
    detectFrom c (some (detectFrom c hdr).1) = detectFrom c hdr := by
  by_cases hlen : c.length < 2
  · simp only [detectFrom, if_pos hlen]
  · have hshape : (detectFrom c hdr).1 = ((mostCommon c).headD ("", 0)).1 ∨
        (∃ raw, hdr = some raw ∧ _normalize_lang raw ≠ "" ∧ _normalize_lang raw ≠ "*all*" ∧
          (detectFrom c hdr).1 = _normalize_lang raw) := by
      cases hdr with
      | none => exact Or.inl (detectFrom_src_none c hlen)
      | some raw =>
        by_cases hdeg : _normalize_lang raw = "" ∨ _normalize_lang raw = "*all*"
        · exact Or.inl (detectFrom_src_degenerate c raw hlen hdeg)
        · push_neg at hdeg
          exact Or.inr ⟨raw, rfl, hdeg.1, hdeg.2,
            detectFrom_src_header c raw hlen hdeg.1 hdeg.2⟩
    have hS1 : (detectFrom c (some (detectFrom c hdr).1)).1 = (detectFrom c hdr).1 := by
      rcases hshape with hS | ⟨raw, hraw, h1, h2, hSr⟩
      · have hcne : c ≠ [] := by
          intro h
          rw [h] at hlen
          simp at hlen
        obtain ⟨h0, t, heq⟩ := List.exists_cons_of_ne_nil (mostCommon_ne_nil c hcne)
        have hmem : h0 ∈ c := (head_mostCommon_max c h0 t heq).1
        have hhd : ((mostCommon c).headD ("", 0)).1 = h0.1 := by
          rw [heq]
          rfl
        have hnorm : _normalize_lang (detectFrom c hdr).1 = (detectFrom c hdr).1 := by
          rw [hS, hhd]
          exact hkeys h0 hmem
        by_cases hall : (detectFrom c hdr).1 = "*all*"
        · rw [detectFrom_src_degenerate c _ hlen (Or.inr (by rw [hnorm]; exact hall))]
          rw [hS]
        · by_cases hemp : (detectFrom c hdr).1 = ""
          · rw [detectFrom_src_degenerate c _ hlen (Or.inl (by rw [hnorm]; exact hemp))]
            rw [hS]
          · rw [detectFrom_src_header c _ hlen (by rw [hnorm]; exact hemp)
              (by rw [hnorm]; exact hall)]
            exact hnorm
      · have hnorm : _normalize_lang (detectFrom c hdr).1 = (detectFrom c hdr).1 := by
          rw [hSr]
          exact norm_lang_idem raw
        rw [detectFrom_src_header c _ hlen (by rw [hnorm, hSr]; exact h1)
          (by rw [hnorm, hSr]; exact h2)]
        exact hnorm
    rw [Prod.ext_iff]
    refine ⟨hS1, ?_⟩
    rw [detectFrom_tgt c _ hlen, detectFrom_tgt c hdr hlen, hS1]

theorem iterTag_eq (t tag : String) (a : List (String × String)) (s : String)
    (ch : List (XElem × String)) :
    XElem.iterTag t (.mk tag a s ch) =
      (if tag = t then [XElem.mk tag a s ch] else []) ++ iterTagL t ch := by
  rw [XElem.iterTag]

theorem iterTag_of_ne (t : String) (e : XElem) (h : e.tag ≠ t) :
    XElem.iterTag t e = iterTagL t e.children := by
  cases e with
  | mk tag a s ch =>
    rw [iterTag_eq]
    rw [show (XElem.mk tag a s ch).tag = tag from rfl] at h
    rw [if_neg h]
    rfl

theorem iterTagL_tails (t : String) : ∀ ch : List (XElem × String),
    iterTagL t ((ch.map Prod.fst).map (fun e => (e, ""))) = iterTagL t ch
  | [] => rfl
  | (c, tl) :: rest => by
    rw [List.map_cons, List.map_cons, iterTagL, iterTagL, iterTagL_tails t rest]

theorem setAttr_tag (e : XElem) (k v : String) : (e.setAttr k v).tag = e.tag := by
  cases e
  rfl

theorem setAttr_children (e : XElem) (k v : String) :
    (e.setAttr k v).children = e.children := by
  cases e
  rfl

theorem iterTag_setAttr_of_ne (t : String) (e : XElem) (k v : String) (h : e.tag ≠ t) :
    XElem.iterTag t (e.setAttr k v) = XElem.iterTag t e := by
  rw [iterTag_of_ne t _ (by rw [setAttr_tag]; exact h), iterTag_of_ne t e h, setAttr_children]

theorem findallTag_of_allTu (b : XElem) (h : bodyAllTu b = true) :
    b.findallTag "tu" = b.children.map Prod.fst := by
  rw [XElem.findallTag]
  apply List.filter_eq_self.mpr
  intro c hc
  rw [bodyAllTu, List.all_eq_true] at h
  obtain ⟨p, hp, hpc⟩ := List.mem_map.mp hc
  have := h p hp
  rw [decide_eq_true_eq, hpc] at this
  exact decide_eq_true this

theorem lookup_setAttrList : ∀ (l : List (String × String)) (k v : String),
    List.lookup k (setAttrList l k v) = some v
  | [], k, v => by
    rw [setAttrList, List.lookup]
    simp
  | (k', v') :: rest, k, v => by
    rw [setAttrList]
    by_cases h : k' = k
    · rw [if_pos h, List.lookup]
      simp
    · rw [if_neg h, List.lookup, beq_false_of_ne (fun hc => h hc.symm)]
      exact lookup_setAttrList rest k v

theorem mem_observedLangs_normalized (root : XElem) (x : String)
    (hx : x ∈ observedLangs root) : _normalize_lang x = x := by
  rw [observedLangs] at hx
  obtain ⟨tuv, _, htuv⟩ := List.mem_filterMap.mp hx
  by_cases h : tuvRawLang tuv = ""
  · rw [if_pos h] at htuv
    exact Option.noConfusion htuv
  · rw [if_neg h] at htuv
    have := Option.some.inj htuv
    rw [← this]
    exact norm_lang_idem _

theorem build_tu_fresh (S T : String) (tu : XElem) :
    _build_tu_from_row (rowOfTu S T tu) S T = tu := rfl

theorem parse_tmx_ok (root : XElem)
    (h1 : (if root.tag.data.contains '}' then localnameOf root.tag else root.tag).toLower
      = "tmx")
    (body : XElem) (h2 : root.find "body" = some body) :
    parse_tmx root = Except.ok
      { rows := (body.findallTag "tu").map
          (rowOfTu (_detect_languages root).1 (_detect_languages root).2),
        source_lang := (_detect_languages root).1,
        target_lang := (_detect_languages root).2,
        header_attribs := match root.find "header" with | some h => h.attribs | none => [],
        header_element := root.find "header",
        file_path := none } := by
  rw [parse_tmx]
  rw [if_neg (fun hc => hc h1), h2]

theorem setAttr_attribs (e : XElem) (k v : String) :
    (e.setAttr k v).attribs = setAttrList e.attribs k v := by
  cases e
  rfl

theorem write_tree_eq (doc : AlignmentDocument) :
    write_tree doc = XElem.mk "tmx" [("version", "1.4")] ""
      [(writeHeaderElem doc, ""),
       (XElem.mk "body" [] ""
         ((doc.rows.map (fun row => _build_tu_from_row row doc.source_lang doc.target_lang)).map
           (fun tu => (tu, ""))), "")] := by
  rw [write_tree, writeHeaderElem]

theorem string_toLower_eq (s : String) :
    s.toLower = String.mk (s.data.map Char.toLower) :=
  String.map_eq Char.toLower s

theorem tmx_tag_cond :
    (if ("tmx" : String).data.contains '}' then localnameOf "tmx"
      else ("tmx" : String)).toLower = "tmx" := by
  rw [string_toLower_eq]
  rfl

theorem writeHeaderElem_none (doc : AlignmentDocument) (h : doc.header_element = none) :
    writeHeaderElem doc = XElem.mk "header" (synthHeaderAttribs doc) "" [] := by
  rw [writeHeaderElem, h]

theorem writeHeaderElem_some (doc : AlignmentDocument) (he : XElem)
    (h : doc.header_element = some he) :
    writeHeaderElem doc = he.setAttr "srclang" doc.source_lang := by
  rw [writeHeaderElem, h]

theorem parse_write_tree (D : AlignmentDocument)
    (hhtag : (writeHeaderElem D).tag = "header")
    (hdetW : _detect_languages (write_tree D) = (D.source_lang, D.target_lang))
    (hbuild : (D.rows.map
        (fun row => _build_tu_from_row row D.source_lang D.target_lang)).map
        (rowOfTu D.source_lang D.target_lang) = D.rows)
    (htags : ∀ tu ∈ D.rows.map
        (fun row => _build_tu_from_row row D.source_lang D.target_lang), tu.tag = "tu") :
    ∃ D', parse_tmx (write_tree D) = Except.ok D' ∧ D'.rows = D.rows ∧
      D'.source_lang = D.source_lang ∧ D'.target_lang = D.target_lang := by
  have hfb : (write_tree D).find "body" =
      some (XElem.mk "body" [] ""
        ((D.rows.map (fun row => _build_tu_from_row row D.source_lang D.target_lang)).map
          (fun tu => (tu, "")))) := by
    rw [write_tree_eq, XElem.find]
    show List.find? _ [writeHeaderElem D, _] = _
    rw [List.find?_cons_of_neg _ (by rw [hhtag]; decide), List.find?_cons_of_pos _ rfl]
  have htg : (if (write_tree D).tag.data.contains '}' then localnameOf (write_tree D).tag
      else (write_tree D).tag).toLower = "tmx" := by
    rw [write_tree_eq]
    exact tmx_tag_cond
  have hfall : XElem.findallTag (XElem.mk "body" [] ""
      ((D.rows.map (fun row => _build_tu_from_row row D.source_lang D.target_lang)).map
        (fun tu => (tu, "")))) "tu" =
      D.rows.map (fun row => _build_tu_from_row row D.source_lang D.target_lang) := by
    rw [XElem.findallTag]
    show (((D.rows.map (fun row => _build_tu_from_row row D.source_lang D.target_lang)).map
        (fun tu => (tu, ""))).map Prod.fst).filter (fun c => c.tag = "tu") = _
    rw [List.map_map]
    rw [show (Prod.fst ∘ fun tu : XElem => (tu, ("" : String))) = id from rfl, List.map_id]
    exact List.filter_eq_self.mpr (fun a ha => decide_eq_true (htags a ha))
  have hpo := parse_tmx_ok (write_tree D) htg _ hfb
  refine ⟨_, hpo, ?_, ?_, ?_⟩
  · show (XElem.findallTag _ "tu").map
      (rowOfTu (_detect_languages (write_tree D)).1 (_detect_languages (write_tree D)).2) = D.rows
    rw [hfall, hdetW]
    exact hbuild
  · show (_detect_languages (write_tree D)).1 = D.source_lang
    rw [hdetW]
  · show (_detect_languages (write_tree D)).2 = D.target_lang
    rw [hdetW]

theorem roundtrip_canonical (root : XElem) (D : AlignmentDocument)
    (hshape : canonicalShape root = true) (hp : parse_tmx root = Except.ok D) :
    ∃ D', parse_tmx (write_tree D) = Except.ok D' ∧ D'.rows = D.rows ∧
      D'.source_lang = D.source_lang ∧ D'.target_lang = D.target_lang := by
  cases root with
  | mk rtag ra rs rch =>
    rcases rch with _ | ⟨⟨c1, t1⟩, _ | ⟨⟨c2, t2⟩, _ | ⟨p3, rest⟩⟩⟩
    · simp [canonicalShape] at hshape
    · -- body-only tree
      simp only [canonicalShape, Bool.and_eq_true, decide_eq_true_eq] at hshape
      obtain ⟨h1, hb, hall⟩ := hshape
      have hrne : rtag ≠ "tuv" := by
        intro hc
        rw [hc] at h1
        rw [string_toLower_eq] at h1
        exact absurd h1 (by decide)
      have hfh : XElem.find (XElem.mk rtag ra rs [(c1, t1)]) "header" = none := by
        rw [XElem.find]
        show List.find? _ [c1] = none
        rw [List.find?_cons_of_neg _ (by rw [hb]; decide)]
        rfl
      have hfb : XElem.find (XElem.mk rtag ra rs [(c1, t1)]) "body" = some c1 := by
        rw [XElem.find]
        show List.find? _ [c1] = some c1
        exact List.find?_cons_of_pos _ (by rw [hb]; rfl)
      have hpo := parse_tmx_ok (XElem.mk rtag ra rs [(c1, t1)]) h1 c1 hfb
      rw [hpo] at hp
      have hD := Except.ok.inj hp
      have hhe : D.header_element = none := by
        rw [← hD]
        exact hfh
      have hsl : D.source_lang = (_detect_languages (XElem.mk rtag ra rs [(c1, t1)])).1 := by
        rw [← hD]
      have htl : D.target_lang = (_detect_languages (XElem.mk rtag ra rs [(c1, t1)])).2 := by
        rw [← hD]
      have hrows : D.rows =
          (c1.children.map Prod.fst).map (rowOfTu D.source_lang D.target_lang) := by
        rw [← hD]
        show (c1.findallTag "tu").map _ = _
        rw [findallTag_of_allTu c1 hall]
      have htusW : D.rows.map
          (fun row => _build_tu_from_row row D.source_lang D.target_lang) =
          c1.children.map Prod.fst := by
        rw [hrows, List.map_map]
        have hc : ∀ tu ∈ c1.children.map Prod.fst,
            ((fun row => _build_tu_from_row row D.source_lang D.target_lang) ∘
              rowOfTu D.source_lang D.target_lang) tu = id tu :=
          fun tu _ => build_tu_fresh D.source_lang D.target_lang tu
        rw [List.map_congr_left hc, List.map_id]
      have hhtag : (writeHeaderElem D).tag = "header" := by
        rw [writeHeaderElem_none D hhe]
        rfl
      have hiter : XElem.iterTag "tuv" (write_tree D) =
          XElem.iterTag "tuv" (XElem.mk rtag ra rs [(c1, t1)]) := by
        rw [write_tree_eq, iterTag_eq, if_neg (by decide : ¬ ("tmx" : String) = "tuv")]
        simp only [iterTagL]
        have hhdrW : XElem.iterTag "tuv" (writeHeaderElem D) = [] := by
          rw [writeHeaderElem_none D hhe, iterTag_eq,
            if_neg (by decide : ¬ ("header" : String) = "tuv")]
          rfl
        rw [hhdrW, iterTag_eq, if_neg (by decide : ¬ ("body" : String) = "tuv"), htusW,
          iterTagL_tails, iterTag_eq, if_neg hrne]
        simp only [iterTagL]
        rw [iterTag_of_ne "tuv" c1 (by rw [hb]; decide)]
        simp
      have hdetW : _detect_languages (write_tree D) = (D.source_lang, D.target_lang) := by
        have hobs : observedLangs (write_tree D) =
            observedLangs (XElem.mk rtag ra rs [(c1, t1)]) := by
          rw [observedLangs, observedLangs, hiter]
        have hfh2 : (write_tree D).find "header" = some (writeHeaderElem D) := by
          rw [write_tree_eq, XElem.find]
          show List.find? _ [writeHeaderElem D, _] = _
          exact List.find?_cons_of_pos _ (decide_eq_true hhtag)
        have hga : (writeHeaderElem D).getAttr "srclang" = some D.source_lang := by
          rw [writeHeaderElem_none D hhe, XElem.getAttr]
          show List.lookup "srclang" (synthHeaderAttribs D) = _
          rw [synthHeaderAttribs]
          exact lookup_setAttrList _ _ _
        have hdetR : _detect_languages (XElem.mk rtag ra rs [(c1, t1)]) =
            detectFrom (counterOf (observedLangs (XElem.mk rtag ra rs [(c1, t1)]))) none := by
          rw [_detect_languages, hfh]
          rfl
        have hkeys : ∀ y : String × Nat,
            y ∈ counterOf (observedLangs (XElem.mk rtag ra rs [(c1, t1)])) →
            _normalize_lang y.1 = y.1 :=
          fun y hy => mem_observedLangs_normalized _ y.1 (mem_counterOf_keys _ y hy)
        rw [_detect_languages, hobs, hfh2, Option.map_some', hga, Option.getD_some,
          hsl, htl, hdetR]
        rw [detectFrom_stable _ none hkeys]
      obtain ⟨D', ha, hb2, hc2, hd2⟩ := parse_write_tree D hhtag hdetW
        (by rw [htusW]; exact hrows.symm)
        (by
          rw [htusW]
          intro tu htu
          rw [bodyAllTu, List.all_eq_true] at hall
          obtain ⟨p, hpm, hpc⟩ := List.mem_map.mp htu
          have hq := hall p hpm
          rw [decide_eq_true_eq, hpc] at hq
          exact hq)
      exact ⟨D', ha, hb2, hc2, hd2⟩
    · -- header and body tree
      simp only [canonicalShape, Bool.and_eq_true, decide_eq_true_eq] at hshape
      obtain ⟨h1, ⟨hh, hb⟩, hall⟩ := hshape
      have hrne : rtag ≠ "tuv" := by
        intro hc
        rw [hc] at h1
        rw [string_toLower_eq] at h1
        exact absurd h1 (by decide)
      have hfh : XElem.find (XElem.mk rtag ra rs [(c1, t1), (c2, t2)]) "header" = some c1 := by
        rw [XElem.find]
        show List.find? _ [c1, c2] = some c1
        exact List.find?_cons_of_pos _ (by rw [hh]; rfl)
      have hfb : XElem.find (XElem.mk rtag ra rs [(c1, t1), (c2, t2)]) "body" = some c2 := by
        rw [XElem.find]
        show List.find? _ [c1, c2] = some c2
        rw [List.find?_cons_of_neg _ (by rw [hh]; decide)]
        exact List.find?_cons_of_pos _ (by rw [hb]; rfl)
      have hpo := parse_tmx_ok (XElem.mk rtag ra rs [(c1, t1), (c2, t2)]) h1 c2 hfb
      rw [hpo] at hp
      have hD := Except.ok.inj hp
      have hhe : D.header_element = some c1 := by
        rw [← hD]
        exact hfh
      have hsl : D.source_lang =
          (_detect_languages (XElem.mk rtag ra rs [(c1, t1), (c2, t2)])).1 := by
        rw [← hD]
      have htl : D.target_lang =
          (_detect_languages (XElem.mk rtag ra rs [(c1, t1), (c2, t2)])).2 := by
        rw [← hD]
      have hrows : D.rows =
          (c2.children.map Prod.fst).map (rowOfTu D.source_lang D.target_lang) := by
        rw [← hD]
        show (c2.findallTag "tu").map _ = _
        rw [findallTag_of_allTu c2 hall]
      have htusW : D.rows.map
          (fun row => _build_tu_from_row row D.source_lang D.target_lang) =
          c2.children.map Prod.fst := by
        rw [hrows, List.map_map]
        have hc : ∀ tu ∈ c2.children.map Prod.fst,
            ((fun row => _build_tu_from_row row D.source_lang D.target_lang) ∘
              rowOfTu D.source_lang D.target_lang) tu = id tu :=
          fun tu _ => build_tu_fresh D.source_lang D.target_lang tu
        rw [List.map_congr_left hc, List.map_id]
      have hhtag : (writeHeaderElem D).tag = "header" := by
        rw [writeHeaderElem_some D c1 hhe, setAttr_tag]
        exact hh
      have hiter : XElem.iterTag "tuv" (write_tree D) =
          XElem.iterTag "tuv" (XElem.mk rtag ra rs [(c1, t1), (c2, t2)]) := by
        rw [write_tree_eq, iterTag_eq, if_neg (by decide : ¬ ("tmx" : String) = "tuv")]
        simp only [iterTagL]
        have hhdrW : XElem.iterTag "tuv" (writeHeaderElem D) = XElem.iterTag "tuv" c1 := by
          rw [writeHeaderElem_some D c1 hhe]
          exact iterTag_setAttr_of_ne "tuv" c1 _ _ (by rw [hh]; decide)
        rw [hhdrW, iterTag_eq, if_neg (by decide : ¬ ("body" : String) = "tuv"), htusW,
          iterTagL_tails, iterTag_eq, if_neg hrne]
        simp only [iterTagL]
        rw [iterTag_of_ne "tuv" c2 (by rw [hb]; decide)]
        simp
      have hdetW : _detect_languages (write_tree D) = (D.source_lang, D.target_lang) := by
        have hobs : observedLangs (write_tree D) =
            observedLangs (XElem.mk rtag ra rs [(c1, t1), (c2, t2)]) := by
          rw [observedLangs, observedLangs, hiter]
        have hfh2 : (write_tree D).find "header" = some (writeHeaderElem D) := by
          rw [write_tree_eq, XElem.find]
          show List.find? _ [writeHeaderElem D, _] = _
          exact List.find?_cons_of_pos _ (decide_eq_true hhtag)
        have hga : (writeHeaderElem D).getAttr "srclang" = some D.source_lang := by
          rw [writeHeaderElem_some D c1 hhe, XElem.getAttr, setAttr_attribs]
          exact lookup_setAttrList _ _ _
        have hdetR : _detect_languages (XElem.mk rtag ra rs [(c1, t1), (c2, t2)]) =
            detectFrom (counterOf (observedLangs (XElem.mk rtag ra rs [(c1, t1), (c2, t2)])))
              (some ((c1.getAttr "srclang").getD "")) := by
          rw [_detect_languages, hfh]
          rfl
        have hkeys : ∀ y : String × Nat,
            y ∈ counterOf (observedLangs (XElem.mk rtag ra rs [(c1, t1), (c2, t2)])) →
            _normalize_lang y.1 = y.1 :=
          fun y hy => mem_observedLangs_normalized _ y.1 (mem_counterOf_keys _ y hy)
        rw [_detect_languages, hobs, hfh2, Option.map_some', hga, Option.getD_some,
          hsl, htl, hdetR]
        rw [detectFrom_stable _ (some ((c1.getAttr "srclang").getD "")) hkeys]
      obtain ⟨D', ha, hb2, hc2, hd2⟩ := parse_write_tree D hhtag hdetW
        (by rw [htusW]; exact hrows.symm)
        (by
          rw [htusW]
          intro tu htu
          rw [bodyAllTu, List.all_eq_true] at hall
          obtain ⟨p, hpm, hpc⟩ := List.mem_map.mp htu
          have hq := hall p hpm
          rw [decide_eq_true_eq, hpc] at hq
          exact hq)
      exact ⟨D', ha, hb2, hc2, hd2⟩
    · simp [canonicalShape] at hshape

/-- Counterexample to C1 as stated: `exTreeC1` is a well-formed input for
the parser (root `tmx`, a `body`, one `tu`), but the `body` also holds a
non-`tu` child wrapping a `th` `tuv`.  The parser's language detection
walks `root.iter("tuv")`, so it sees that `tuv` and detects
`("en", "th")`; the writer emits only the `tu` rows, so reparsing the
written tree observes just `en` and detects `("en", "unknown")` — the
target language is not preserved by the round trip. -/
theorem spec_c1_counterexample :
    ∃ D : AlignmentDocument, parse_tmx exTreeC1 = Except.ok D ∧
      D.source_lang = "en" ∧ D.target_lang = "th" ∧ D.row_count = 1 ∧
      ∃ D' : AlignmentDocument, parse_tmx (write_tree D) = Except.ok D' ∧
        D'.row_count = 1 ∧ D'.source_lang = "en" ∧ D'.target_lang = "unknown" := by
  refine ⟨_, parse_tmx_ok exTreeC1 tmx_tag_cond bodyC1 rfl, by decide, by decide, by decide, ?_⟩
  refine ⟨_, parse_tmx_ok _ (by rw [write_tree_eq]; exact tmx_tag_cond) _ rfl, ?_, ?_, ?_⟩
  · decide
  · decide
  · decide

theorem exTreeC1ok_shape : canonicalShape exTreeC1ok = true :=
  (Bool.and_eq_true _ _).mpr ⟨decide_eq_true tmx_tag_cond, by decide⟩

theorem exTreeC1ok_parse : parse_tmx exTreeC1ok = Except.ok exDocC1 := by
  rw [parse_tmx_ok exTreeC1ok tmx_tag_cond bodyOkC1 rfl]
  rfl

/-- C1 as amended: the round trip `parse(write(parse(t)))` preserves the
row count, the detected source/target languages and each row's source and
target text for every tree of the canonical TMX shape — a `tmx` root
whose direct children are exactly an optional `header` followed by a
`body` all of whose direct children are `tu` elements.  (Unrestricted,
the claim is false: a `tuv` under a non-`tu` body child skews language
detection but is dropped by the writer, see the counterexample.) -/
theorem spec_c1_roundtrip_amended (root : XElem) (D : AlignmentDocument)
    (hshape : canonicalShape root = true) (hparse : parse_tmx root = Except.ok D) :
    ∃ D', parse_tmx (write_tree D) = Except.ok D' ∧
      D'.row_count = D.row_count ∧
      D'.source_lang = D.source_lang ∧ D'.target_lang = D.target_lang ∧
      ∀ i : Nat, D'.rows[i]?.map AlignmentRow.source = D.rows[i]?.map AlignmentRow.source ∧
        D'.rows[i]?.map AlignmentRow.target = D.rows[i]?.map AlignmentRow.target := by
  obtain ⟨D', h1, h2, h3, h4⟩ := roundtrip_canonical root D hshape hparse
  refine ⟨D', h1, ?_, h3, h4, fun i => ⟨by rw [h2], by rw [h2]⟩⟩
  rw [AlignmentDocument.row_count, AlignmentDocument.row_count, h2]

/-- Witness for the amended C1 at a concrete canonical tree with a
header, one `tu` and an `en`/`th` pair of `tuv` children. -/
theorem spec_c1_roundtrip_amended_witness :
    canonicalShape exTreeC1ok = true ∧ parse_tmx exTreeC1ok = Except.ok exDocC1 ∧
    ∃ D', parse_tmx (write_tree exDocC1) = Except.ok D' ∧
      D'.row_count = exDocC1.row_count ∧
      D'.source_lang = exDocC1.source_lang ∧ D'.target_lang = exDocC1.target_lang ∧
      ∀ i : Nat, D'.rows[i]?.map AlignmentRow.source = exDocC1.rows[i]?.map AlignmentRow.source ∧
        D'.rows[i]?.map AlignmentRow.target = exDocC1.rows[i]?.map AlignmentRow.target :=
  ⟨exTreeC1ok_shape, exTreeC1ok_parse,
    spec_c1_roundtrip_amended exTreeC1ok exDocC1 exTreeC1ok_shape exTreeC1ok_parse⟩
